import Mathlib

/-!
Verification of the JobScanner backend against its specification.

The definitions below are a shallow embedding of the TypeScript sources:
  - src/backend/src/types/index.ts        (data model, AIMatchingEngine)
  - src/backend/src/utils/validation.ts   (input validation)
  - src/backend/src/services/resumeParser.ts
  - src/backend/src/services/scrapingService.ts

Modelling conventions:
  - JavaScript numbers are modelled as rationals; JSON.parse cannot
    produce NaN or Infinity, so rationals cover every value the
    validated code paths can see.
  - Effectful external collaborators (the OpenAI chat call, JSON.parse,
    the WHATWG URL parser, the headless-browser page extraction) are
    passed in as explicit function parameters; theorems quantify over
    them.
  - Thrown exceptions are modelled with Except; timestamp fields
    (Date objects such as analyzedAt, scrapedAt, parsedAt) are omitted
    because no claim mentions them and they are nondeterministic.
  - Timing behaviour (setTimeout delays) is modelled by an explicit
    event trace emitted by the matching engine, recording each scoring
    attempt, each inter-retry delay and each inter-batch delay.
-/

namespace JobScanner

/-- JSON values, the possible results of JSON.parse.  Objects are
association lists; JSON.parse output has unique keys. -/
inductive Json where
  | null : Json
  | bool (b : Bool) : Json
  | num (q : ℚ) : Json
  | str (s : String) : Json
  | arr (elems : List Json) : Json
  | obj (fields : List (String × Json)) : Json

/-- Embeds the ServiceError class of src/backend/src/types/index.ts:
message, originating service, machine-readable code, retryable flag. -/
structure ServiceError where
  message : String
  service : String
  code : String
  retryable : Bool
deriving DecidableEq, Repr

/-- Embeds the ValidationError class of src/backend/src/types/index.ts:
message, offending field, machine-readable code.  Validation errors
carry no retryable flag; the spec classifies them as always
non-retryable. -/
structure ValidationError where
  message : String
  field : String
  code : String
deriving DecidableEq, Repr

/-- Embeds the JobListing interface (timestamp omitted). -/
structure JobListing where
  jobId : String
  jobTitle : String
  location : String
  requiredExperience : ℚ
  requiredSkills : List String
  description : String
  applyUrl : String
deriving Repr, DecidableEq

/-- Embeds the CandidateProfile interface (timestamp omitted). -/
structure CandidateProfile where
  skills : List String
  yearsOfExperience : ℤ
  technologies : List String
  previousRoles : List String
  rawText : String
deriving Repr

/-- Embeds the MatchResult interface (timestamp omitted).  The
missingSkills array is copied unchecked from the model response, whose
elements the source never inspects, so its element type is Json. -/
structure MatchResult where
  jobId : String
  jobTitle : String
  location : String
  requiredExperience : ℚ
  matchScore : ℚ
  suitable : Bool
  missingSkills : List Json
  experienceGap : ℚ
  reasoning : String
  applyUrl : String

/-- Embeds the MatchingConfig interface and DEFAULT_CONFIG of the
AI matching engine (model name, temperature and token cap are carried
but never influence control flow). -/
structure MatchingConfig where
  model : String
  temperature : ℚ
  maxTokens : Nat
  batchSize : Nat
  batchDelay : Nat
  maxRetries : Nat

/-- DEFAULT_CONFIG from the engine source. -/
def defaultConfig : MatchingConfig :=
  { model := "gpt-3.5-turbo", temperature := 3/10, maxTokens := 1000,
    batchSize := 3, batchDelay := 2000, maxRetries := 3 }

/-! ## Response validator (AIMatchingEngine.parseAndValidateResponse) -/

/-- Property access parsed.k on a JSON value: some value when parsed is
an object with field k, none (undefined) otherwise. -/
def Json.getField : Json → String → Option Json
  | .obj fields, k => (fields.find? (fun p => p.1 = k)).map (fun p => p.2)
  | _, _ => none

/-- The INVALID_JSON service error thrown when JSON.parse fails. -/
def invalidJsonError : ServiceError :=
  ⟨"Failed to parse OpenAI response as JSON", "ai-matching", "INVALID_JSON", true⟩

/-- The INVALID_MATCH_SCORE service error. -/
def invalidMatchScoreError : ServiceError :=
  ⟨"Invalid matchScore in response", "ai-matching", "INVALID_MATCH_SCORE", true⟩

/-- The INVALID_SUITABLE service error. -/
def invalidSuitableError : ServiceError :=
  ⟨"Invalid suitable field in response", "ai-matching", "INVALID_SUITABLE", true⟩

/-- The INVALID_MISSING_SKILLS service error. -/
def invalidMissingSkillsError : ServiceError :=
  ⟨"Invalid missingSkills in response", "ai-matching", "INVALID_MISSING_SKILLS", true⟩

/-- The INVALID_EXPERIENCE_GAP service error. -/
def invalidExperienceGapError : ServiceError :=
  ⟨"Invalid experienceGap in response", "ai-matching", "INVALID_EXPERIENCE_GAP", true⟩

/-- The INVALID_REASONING service error. -/
def invalidReasoningError : ServiceError :=
  ⟨"Invalid reasoning in response", "ai-matching", "INVALID_REASONING", true⟩

/-- The EMPTY_RESPONSE service error thrown when the chat completion
has a falsy content. -/
def emptyResponseError : ServiceError :=
  ⟨"OpenAI API returned empty response", "ai-matching", "EMPTY_RESPONSE", true⟩

/-- The validated shape returned by parseAndValidateResponse. -/
structure ParsedMatch where
  matchScore : ℚ
  suitable : Bool
  missingSkills : List Json
  experienceGap : ℚ
  reasoning : String

/-- The matchScore check of the validator: typeof a number, not below 0
and not above 100, else the INVALID_MATCH_SCORE error. -/
def checkMatchScore (parsed : Json) : Except ServiceError ℚ :=
  match parsed.getField "matchScore" with
  | some (.num score) =>
    if score < 0 ∨ 100 < score then .error invalidMatchScoreError else .ok score
  | _ => .error invalidMatchScoreError

/-- The suitable check of the validator: typeof a boolean, else the
INVALID_SUITABLE error. -/
def checkSuitable (parsed : Json) : Except ServiceError Bool :=
  match parsed.getField "suitable" with
  | some (.bool b) => .ok b
  | _ => .error invalidSuitableError

/-- The missingSkills check of the validator: Array.isArray, else the
INVALID_MISSING_SKILLS error. -/
def checkMissingSkills (parsed : Json) : Except ServiceError (List Json) :=
  match parsed.getField "missingSkills" with
  | some (.arr xs) => .ok xs
  | _ => .error invalidMissingSkillsError

/-- The experienceGap check of the validator: typeof a number, else the
INVALID_EXPERIENCE_GAP error. -/
def checkExperienceGap (parsed : Json) : Except ServiceError ℚ :=
  match parsed.getField "experienceGap" with
  | some (.num q) => .ok q
  | _ => .error invalidExperienceGapError

/-- The reasoning check of the validator: typeof a string of nonzero
length, else the INVALID_REASONING error. -/
def checkReasoning (parsed : Json) : Except ServiceError String :=
  match parsed.getField "reasoning" with
  | some (.str s) => if s.length = 0 then .error invalidReasoningError else .ok s
  | _ => .error invalidReasoningError

/-- Field validation block of parseAndValidateResponse: the five field
checks run in source order, stopping at the first violation with its
distinct retryable error. -/
def validateFields (parsed : Json) : Except ServiceError ParsedMatch := do
  let score ← checkMatchScore parsed
  let suitable ← checkSuitable parsed
  let missingSkills ← checkMissingSkills parsed
  let experienceGap ← checkExperienceGap parsed
  let reasoning ← checkReasoning parsed
  return ⟨score, suitable, missingSkills, experienceGap, reasoning⟩

/-- The matchScore field check of the validator: a number in [0,100]. -/
def scoreOk (parsed : Json) : Prop :=
  ∃ q : ℚ, parsed.getField "matchScore" = some (.num q) ∧ 0 ≤ q ∧ q ≤ 100

/-- The suitable field check of the validator: a boolean. -/
def suitableOk (parsed : Json) : Prop :=
  ∃ b : Bool, parsed.getField "suitable" = some (.bool b)

/-- The missingSkills field check of the validator: an array. -/
def missingSkillsOk (parsed : Json) : Prop :=
  ∃ xs : List Json, parsed.getField "missingSkills" = some (.arr xs)

/-- The experienceGap field check of the validator: a number. -/
def experienceGapOk (parsed : Json) : Prop :=
  ∃ q : ℚ, parsed.getField "experienceGap" = some (.num q)

/-- The reasoning field check of the validator: a non-empty string. -/
def reasoningOk (parsed : Json) : Prop :=
  ∃ s : String, parsed.getField "reasoning" = some (.str s) ∧ s.length ≠ 0

theorem exceptBind_ok {ε α β : Type} (a : α) (f : α → Except ε β) :
    (Except.ok a : Except ε α).bind f = f a := rfl

theorem exceptBind_error {ε α β : Type} (e : ε) (f : α → Except ε β) :
    (Except.error e : Except ε α).bind f = .error e := rfl

theorem validateFields_def (parsed : Json) : validateFields parsed =
    (checkMatchScore parsed).bind (fun score =>
    (checkSuitable parsed).bind (fun suitable =>
    (checkMissingSkills parsed).bind (fun missingSkills =>
    (checkExperienceGap parsed).bind (fun experienceGap =>
    (checkReasoning parsed).bind (fun reasoning =>
      .ok ⟨score, suitable, missingSkills, experienceGap, reasoning⟩))))) := rfl

theorem checkMatchScore_error_of_not (parsed : Json) (h : ¬ scoreOk parsed) :
    checkMatchScore parsed = .error invalidMatchScoreError := by
  unfold checkMatchScore
  cases hms : parsed.getField "matchScore" with
  | none => rfl
  | some j =>
    cases j with
    | num q =>
      have hq : q < 0 ∨ 100 < q := by
        by_contra hc
        push_neg at hc
        exact h ⟨q, hms, hc.1, hc.2⟩
      show (if q < 0 ∨ 100 < q then (Except.error invalidMatchScoreError : Except ServiceError ℚ)
        else .ok q) = Except.error invalidMatchScoreError
      rw [if_pos hq]
    | null => rfl
    | bool b => rfl
    | str s => rfl
    | arr xs => rfl
    | obj fs => rfl

theorem checkMatchScore_ok_of (parsed : Json) (q : ℚ)
    (h1 : parsed.getField "matchScore" = some (.num q)) (h2 : 0 ≤ q) (h3 : q ≤ 100) :
    checkMatchScore parsed = .ok q := by
  unfold checkMatchScore
  rw [h1]
  show (if q < 0 ∨ 100 < q then (Except.error invalidMatchScoreError : Except ServiceError ℚ)
    else .ok q) = Except.ok q
  rw [if_neg]
  rintro (hlt | hgt)
  · exact absurd h2 (not_le.mpr hlt)
  · exact absurd h3 (not_le.mpr hgt)

theorem checkMatchScore_ok_inv (parsed : Json) (q : ℚ)
    (h : checkMatchScore parsed = .ok q) :
    parsed.getField "matchScore" = some (.num q) ∧ 0 ≤ q ∧ q ≤ 100 := by
  unfold checkMatchScore at h
  cases hms : parsed.getField "matchScore" with
  | none => rw [hms] at h; exact absurd h (by simp)
  | some j =>
    rw [hms] at h
    cases j with
    | num q0 =>
      change (if q0 < 0 ∨ 100 < q0 then (Except.error invalidMatchScoreError : Except ServiceError ℚ)
        else .ok q0) = Except.ok q at h
      by_cases hq : q0 < 0 ∨ 100 < q0
      · rw [if_pos hq] at h; exact absurd h (by simp)
      · rw [if_neg hq] at h
        push_neg at hq
        cases h
        exact ⟨rfl, hq.1, hq.2⟩
    | null => exact absurd h (by simp)
    | bool b => exact absurd h (by simp)
    | str s => exact absurd h (by simp)
    | arr xs => exact absurd h (by simp)
    | obj fs => exact absurd h (by simp)

theorem checkSuitable_error_of_not (parsed : Json) (h : ¬ suitableOk parsed) :
    checkSuitable parsed = .error invalidSuitableError := by
  unfold checkSuitable
  cases hms : parsed.getField "suitable" with
  | none => rfl
  | some j =>
    cases j with
    | bool b => exact absurd ⟨b, hms⟩ h
    | null => rfl
    | num q => rfl
    | str s => rfl
    | arr xs => rfl
    | obj fs => rfl

theorem checkSuitable_ok_of (parsed : Json) (b : Bool)
    (h : parsed.getField "suitable" = some (.bool b)) :
    checkSuitable parsed = .ok b := by
  unfold checkSuitable
  rw [h]

theorem checkMissingSkills_error_of_not (parsed : Json) (h : ¬ missingSkillsOk parsed) :
    checkMissingSkills parsed = .error invalidMissingSkillsError := by
  unfold checkMissingSkills
  cases hms : parsed.getField "missingSkills" with
  | none => rfl
  | some j =>
    cases j with
    | arr xs => exact absurd ⟨xs, hms⟩ h
    | null => rfl
    | num q => rfl
    | bool b => rfl
    | str s => rfl
    | obj fs => rfl

theorem checkMissingSkills_ok_of (parsed : Json) (xs : List Json)
    (h : parsed.getField "missingSkills" = some (.arr xs)) :
    checkMissingSkills parsed = .ok xs := by
  unfold checkMissingSkills
  rw [h]

theorem checkExperienceGap_error_of_not (parsed : Json) (h : ¬ experienceGapOk parsed) :
    checkExperienceGap parsed = .error invalidExperienceGapError := by
  unfold checkExperienceGap
  cases hms : parsed.getField "experienceGap" with
  | none => rfl
  | some j =>
    cases j with
    | num q => exact absurd ⟨q, hms⟩ h
    | null => rfl
    | bool b => rfl
    | str s => rfl
    | arr xs => rfl
    | obj fs => rfl

theorem checkExperienceGap_ok_of (parsed : Json) (q : ℚ)
    (h : parsed.getField "experienceGap" = some (.num q)) :
    checkExperienceGap parsed = .ok q := by
  unfold checkExperienceGap
  rw [h]

theorem checkReasoning_error_of_not (parsed : Json) (h : ¬ reasoningOk parsed) :
    checkReasoning parsed = .error invalidReasoningError := by
  unfold checkReasoning
  cases hms : parsed.getField "reasoning" with
  | none => rfl
  | some j =>
    cases j with
    | str s =>
      have hs : s.length = 0 := by
        by_contra hc
        exact h ⟨s, hms, hc⟩
      show (if s.length = 0 then (Except.error invalidReasoningError : Except ServiceError String)
        else .ok s) = Except.error invalidReasoningError
      rw [if_pos hs]
    | null => rfl
    | bool b => rfl
    | num q => rfl
    | arr xs => rfl
    | obj fs => rfl

theorem checkReasoning_ok_of (parsed : Json) (s : String)
    (h1 : parsed.getField "reasoning" = some (.str s)) (h2 : s.length ≠ 0) :
    checkReasoning parsed = .ok s := by
  unfold checkReasoning
  rw [h1]
  show (if s.length = 0 then (Except.error invalidReasoningError : Except ServiceError String)
    else .ok s) = Except.ok s
  rw [if_neg h2]

theorem validateFields_ok_of_all (parsed : Json)
    (h1 : scoreOk parsed) (h2 : suitableOk parsed) (h3 : missingSkillsOk parsed)
    (h4 : experienceGapOk parsed) (h5 : reasoningOk parsed) :
    ∃ r, validateFields parsed = .ok r := by
  obtain ⟨q, hq, hq0, hq100⟩ := h1
  obtain ⟨b, hb⟩ := h2
  obtain ⟨xs, hxs⟩ := h3
  obtain ⟨g, hg⟩ := h4
  obtain ⟨s, hs, hs0⟩ := h5
  refine ⟨⟨q, b, xs, g, s⟩, ?_⟩
  rw [validateFields_def, checkMatchScore_ok_of parsed q hq hq0 hq100, exceptBind_ok,
    checkSuitable_ok_of parsed b hb, exceptBind_ok,
    checkMissingSkills_ok_of parsed xs hxs, exceptBind_ok,
    checkExperienceGap_ok_of parsed g hg, exceptBind_ok,
    checkReasoning_ok_of parsed s hs hs0, exceptBind_ok]

/-- Claim C5: the Response Validator field checks succeed exactly when
all five checks pass, and each violation, taken in source order,
produces its own distinct retryable service error. -/
theorem c5_validator_field_checks (parsed : Json) :
    ((∃ r, validateFields parsed = .ok r) ↔
      scoreOk parsed ∧ suitableOk parsed ∧ missingSkillsOk parsed ∧
      experienceGapOk parsed ∧ reasoningOk parsed)
    ∧ (¬ scoreOk parsed →
        validateFields parsed = .error invalidMatchScoreError)
    ∧ (scoreOk parsed → ¬ suitableOk parsed →
        validateFields parsed = .error invalidSuitableError)
    ∧ (scoreOk parsed → suitableOk parsed → ¬ missingSkillsOk parsed →
        validateFields parsed = .error invalidMissingSkillsError)
    ∧ (scoreOk parsed → suitableOk parsed → missingSkillsOk parsed →
        ¬ experienceGapOk parsed →
        validateFields parsed = .error invalidExperienceGapError)
    ∧ (scoreOk parsed → suitableOk parsed → missingSkillsOk parsed →
        experienceGapOk parsed → ¬ reasoningOk parsed →
        validateFields parsed = .error invalidReasoningError)
    ∧ List.Pairwise (fun a b => a ≠ b)
        [invalidMatchScoreError, invalidSuitableError, invalidMissingSkillsError,
         invalidExperienceGapError, invalidReasoningError]
    ∧ (∀ e ∈ [invalidMatchScoreError, invalidSuitableError, invalidMissingSkillsError,
         invalidExperienceGapError, invalidReasoningError], e.retryable = true) := by
  have herr2 : ∀ h1 : scoreOk parsed, ¬ suitableOk parsed →
      validateFields parsed = .error invalidSuitableError := by
    intro h1 h2
    obtain ⟨q, hq, hq0, hq100⟩ := h1
    rw [validateFields_def, checkMatchScore_ok_of parsed q hq hq0 hq100, exceptBind_ok,
      checkSuitable_error_of_not parsed h2, exceptBind_error]
  have herr3 : scoreOk parsed → suitableOk parsed → ¬ missingSkillsOk parsed →
      validateFields parsed = .error invalidMissingSkillsError := by
    intro h1 h2 h3
    obtain ⟨q, hq, hq0, hq100⟩ := h1
    obtain ⟨b, hb⟩ := h2
    rw [validateFields_def, checkMatchScore_ok_of parsed q hq hq0 hq100, exceptBind_ok,
      checkSuitable_ok_of parsed b hb, exceptBind_ok,
      checkMissingSkills_error_of_not parsed h3, exceptBind_error]
  have herr4 : scoreOk parsed → suitableOk parsed → missingSkillsOk parsed →
      ¬ experienceGapOk parsed →
      validateFields parsed = .error invalidExperienceGapError := by
    intro h1 h2 h3 h4
    obtain ⟨q, hq, hq0, hq100⟩ := h1
    obtain ⟨b, hb⟩ := h2
    obtain ⟨xs, hxs⟩ := h3
    rw [validateFields_def, checkMatchScore_ok_of parsed q hq hq0 hq100, exceptBind_ok,
      checkSuitable_ok_of parsed b hb, exceptBind_ok,
      checkMissingSkills_ok_of parsed xs hxs, exceptBind_ok,
      checkExperienceGap_error_of_not parsed h4, exceptBind_error]
  have herr5 : scoreOk parsed → suitableOk parsed → missingSkillsOk parsed →
      experienceGapOk parsed → ¬ reasoningOk parsed →
      validateFields parsed = .error invalidReasoningError := by
    intro h1 h2 h3 h4 h5
    obtain ⟨q, hq, hq0, hq100⟩ := h1
    obtain ⟨b, hb⟩ := h2
    obtain ⟨xs, hxs⟩ := h3
    obtain ⟨g, hg⟩ := h4
    rw [validateFields_def, checkMatchScore_ok_of parsed q hq hq0 hq100, exceptBind_ok,
      checkSuitable_ok_of parsed b hb, exceptBind_ok,
      checkMissingSkills_ok_of parsed xs hxs, exceptBind_ok,
      checkExperienceGap_ok_of parsed g hg, exceptBind_ok,
      checkReasoning_error_of_not parsed h5, exceptBind_error]
  have herr1 : ¬ scoreOk parsed →
      validateFields parsed = .error invalidMatchScoreError := by
    intro h1
    rw [validateFields_def, checkMatchScore_error_of_not parsed h1, exceptBind_error]
  refine ⟨⟨?_, ?_⟩, herr1, herr2, herr3, herr4, herr5, ?_, ?_⟩
  · intro ⟨r, hr⟩
    by_cases h1 : scoreOk parsed
    · by_cases h2 : suitableOk parsed
      · by_cases h3 : missingSkillsOk parsed
        · by_cases h4 : experienceGapOk parsed
          · by_cases h5 : reasoningOk parsed
            · exact ⟨h1, h2, h3, h4, h5⟩
            · rw [herr5 h1 h2 h3 h4 h5] at hr; exact absurd hr (by simp)
          · rw [herr4 h1 h2 h3 h4] at hr; exact absurd hr (by simp)
        · rw [herr3 h1 h2 h3] at hr; exact absurd hr (by simp)
      · rw [herr2 h1 h2] at hr; exact absurd hr (by simp)
    · rw [herr1 h1] at hr; exact absurd hr (by simp)
  · intro ⟨h1, h2, h3, h4, h5⟩
    exact validateFields_ok_of_all parsed h1 h2 h3 h4 h5
  · simp [invalidMatchScoreError, invalidSuitableError, invalidMissingSkillsError,
      invalidExperienceGapError, invalidReasoningError]
  · intro e he
    simp only [List.mem_cons, List.not_mem_nil, or_false] at he
    rcases he with h | h | h | h | h <;> subst h <;> rfl

/-- Witness for C5: a fully valid response object passes all checks. -/
theorem c5_validator_field_checks_witness :
    ∃ r, validateFields (Json.obj
      [("matchScore", .num 85), ("suitable", .bool true), ("missingSkills", .arr []),
       ("experienceGap", .num 2), ("reasoning", .str "good fit")]) = .ok r :=
  (c5_validator_field_checks _).1.mpr
    ⟨⟨85, rfl, by norm_num, by norm_num⟩, ⟨true, rfl⟩, ⟨[], rfl⟩, ⟨2, rfl⟩,
     ⟨"good fit", rfl, by decide⟩⟩

/-! ## Markdown fence extraction (first step of parseAndValidateResponse)

The source applies the regular expression

  three backticks, optional literal json, optional whitespace, a
  capture group of an opening brace, any characters (greedy) and a
  closing brace, optional whitespace, three backticks

to the raw model output and, when it matches, parses the capture group
(the brace-delimited body); otherwise it parses the raw text verbatim.
The functions below implement exactly that match: leftmost starting
position, greedy body (the last closing brace whose tail, after
whitespace, carries the closing fence). -/

/-- The backtick character, written via its code point. -/
def btick : Char := Char.ofNat 96

/-- Whitespace class of JavaScript regular expressions. -/
def isJsWs (c : Char) : Bool :=
  c = '\t' || c = '\n' || c = '\x0b' || c = '\x0c' || c = '\r' || c = ' ' ||
  c = Char.ofNat 0xa0 || c = Char.ofNat 0x1680 ||
  (Char.ofNat 0x2000 ≤ c && c ≤ Char.ofNat 0x200a) ||
  c = Char.ofNat 0x2028 || c = Char.ofNat 0x2029 || c = Char.ofNat 0x202f ||
  c = Char.ofNat 0x205f || c = Char.ofNat 0x3000 || c = Char.ofNat 0xfeff

/-- Tests whether the literal pattern starts the list. -/
def leadsWith : List Char → List Char → Bool
  | [], _ => true
  | _ :: _, [] => false
  | p :: ps, c :: cs => p = c && leadsWith ps cs

/-- Consumes the literal pattern from the head of the list, or fails. -/
def dropLead : List Char → List Char → Option (List Char)
  | [], l => some l
  | _ :: _, [] => none
  | p :: ps, c :: cs => if p = c then dropLead ps cs else none

/-- Substring test: does the needle occur anywhere in the haystack. -/
def containsSub (needle : List Char) : List Char → Bool
  | [] => leadsWith needle []
  | c :: cs => leadsWith needle (c :: cs) || containsSub needle cs

/-- After the closing brace of the capture group, the regex requires
optional whitespace followed by the closing fence. -/
def closesFence (l : List Char) : Bool :=
  leadsWith [btick, btick, btick] (l.dropWhile isJsWs)

/-- Greedy search for the body end: the capture group body extends to
the LAST closing brace whose tail closes the fence, so the search
prefers a later position (recursing first) over the current one.
Returns the body chars up to and including that closing brace. -/
def findLastClose : List Char → Option (List Char)
  | [] => none
  | c :: cs =>
    match findLastClose cs with
    | some inner => some (c :: inner)
    | none => if c = '}' && closesFence cs then some [c] else none

/-- Consumes the optional literal json after the opening fence.  The
alternative without the literal can never succeed when the literal is
present, since a brace or whitespace must follow, so the optional group
is deterministic. -/
def afterOptJson (r1 : List Char) : List Char :=
  match dropLead ['j', 's', 'o', 'n'] r1 with
  | some r => r
  | none => r1

/-- Attempts the fence regex at one fixed starting position: the
opening fence, the optional literal json, optional whitespace, then the
brace-delimited greedy capture group. -/
def matchFenceAt (l : List Char) : Option (List Char) :=
  match dropLead [btick, btick, btick] l with
  | none => none
  | some r1 =>
    match (afterOptJson r1).dropWhile isJsWs with
    | c :: rest =>
      if c = '{' then (findLastClose rest).map (fun inner => '{' :: inner) else none
    | [] => none

/-- Leftmost-match scan of the fence regex over the whole text. -/
def findFence : List Char → Option (List Char)
  | [] => none
  | c :: cs =>
    match matchFenceAt (c :: cs) with
    | some inner => some inner
    | none => findFence cs

/-- The capture group of the fence regex on the raw model output, when
the regex matches. -/
def tryExtractFenced (content : String) : Option String :=
  (findFence content.toList).map (fun cs => String.mk cs)

/-- The string handed to JSON.parse: the capture group when the fence
regex matches, the raw text otherwise. -/
def extractJsonStr (content : String) : String :=
  match tryExtractFenced content with
  | some inner => inner
  | none => content

/-- Embeds AIMatchingEngine.parseAndValidateResponse.  JSON.parse is
the external runtime facility, passed in as parse (none models a parse
exception); its failure becomes the retryable INVALID_JSON service
error, after which the five field checks run. -/
def parseAndValidateResponse (parse : String → Option Json) (content : String) :
    Except ServiceError ParsedMatch :=
  match parse (extractJsonStr content) with
  | none => .error invalidJsonError
  | some parsed => validateFields parsed

theorem validateFields_error_inv (parsed : Json) (e : ServiceError)
    (h : validateFields parsed = .error e) :
    e = invalidMatchScoreError ∨ e = invalidSuitableError ∨ e = invalidMissingSkillsError ∨
    e = invalidExperienceGapError ∨ e = invalidReasoningError := by
  by_cases h1 : scoreOk parsed
  · by_cases h2 : suitableOk parsed
    · by_cases h3 : missingSkillsOk parsed
      · by_cases h4 : experienceGapOk parsed
        · by_cases h5 : reasoningOk parsed
          · obtain ⟨r, hr⟩ := validateFields_ok_of_all parsed h1 h2 h3 h4 h5
            rw [hr] at h
            exact absurd h (by simp)
          · rw [(c5_validator_field_checks parsed).2.2.2.2.2.1 h1 h2 h3 h4 h5] at h
            cases h
            exact Or.inr (Or.inr (Or.inr (Or.inr rfl)))
        · rw [(c5_validator_field_checks parsed).2.2.2.2.1 h1 h2 h3 h4] at h
          cases h
          exact Or.inr (Or.inr (Or.inr (Or.inl rfl)))
      · rw [(c5_validator_field_checks parsed).2.2.2.1 h1 h2 h3] at h
        cases h
        exact Or.inr (Or.inr (Or.inl rfl))
    · rw [(c5_validator_field_checks parsed).2.2.1 h1 h2] at h
      cases h
      exact Or.inr (Or.inl rfl)
  · rw [(c5_validator_field_checks parsed).2.1 h1] at h
    cases h
    exact Or.inl rfl

theorem validateFields_ne_invalidJson (parsed : Json) :
    validateFields parsed ≠ .error invalidJsonError := by
  intro h
  rcases validateFields_error_inv parsed invalidJsonError h with h | h | h | h | h <;>
    simp [invalidJsonError, invalidMatchScoreError, invalidSuitableError,
      invalidMissingSkillsError, invalidExperienceGapError, invalidReasoningError] at h

theorem dropLead_leadsWith (pat l r : List Char) (h : dropLead pat l = some r) :
    leadsWith pat l = true := by
  induction pat generalizing l r with
  | nil => cases l <;> rfl
  | cons p ps ih =>
    cases l with
    | nil => exact absurd h (by simp [dropLead])
    | cons c cs =>
      unfold dropLead at h
      unfold leadsWith
      by_cases hpc : p = c
      · rw [if_pos hpc] at h
        rw [decide_eq_true hpc, Bool.true_and]
        exact ih cs r h
      · rw [if_neg hpc] at h
        exact absurd h (by simp)

theorem matchFenceAt_fence (l : List Char) (inner : List Char)
    (h : matchFenceAt l = some inner) :
    leadsWith [btick, btick, btick] l = true := by
  unfold matchFenceAt at h
  cases hd : dropLead [btick, btick, btick] l with
  | none => rw [hd] at h; exact absurd h (by simp)
  | some r1 => exact dropLead_leadsWith _ l r1 hd

theorem findFence_none_of_no_fence (l : List Char)
    (h : containsSub [btick, btick, btick] l = false) :
    findFence l = none := by
  induction l with
  | nil => rfl
  | cons c cs ih =>
    unfold containsSub at h
    rw [Bool.or_eq_false_iff] at h
    unfold findFence
    cases hm : matchFenceAt (c :: cs) with
    | some inner => exact absurd (matchFenceAt_fence _ _ hm) (by rw [h.1]; simp)
    | none => exact ih h.2

theorem findLastClose_shape (l res : List Char) (h : findLastClose l = some res) :
    ∃ mid, res = mid ++ ['}'] := by
  induction l generalizing res with
  | nil => exact absurd h (by simp [findLastClose])
  | cons c cs ih =>
    unfold findLastClose at h
    cases hrec : findLastClose cs with
    | some inner =>
      rw [hrec] at h
      cases h
      obtain ⟨mid, hmid⟩ := ih inner hrec
      exact ⟨c :: mid, by rw [hmid]; rfl⟩
    | none =>
      rw [hrec] at h
      by_cases hc : (c = '}' && closesFence cs) = true
      · rw [if_pos hc] at h
        cases h
        rw [Bool.and_eq_true] at hc
        have : c = '}' := by simpa using hc.1
        exact ⟨[], by rw [this]; rfl⟩
      · rw [if_neg hc] at h
        exact absurd h (by simp)

/-- Claim C8 (amended): the validator extracts the brace-delimited
capture of the fence regex when it matches, and otherwise — including
when the text contains a fenced code block with a body that is not
brace-delimited — uses the raw text verbatim; whichever string is
selected, a parse failure on it yields exactly the retryable
INVALID_JSON error. -/
theorem c8_fence_extraction_and_parse (parse : String → Option Json) (content : String) :
    (parseAndValidateResponse parse content = .error invalidJsonError ↔
      parse (extractJsonStr content) = none)
    ∧ (tryExtractFenced content = none → extractJsonStr content = content)
    ∧ (∀ inner, tryExtractFenced content = some inner → extractJsonStr content = inner)
    ∧ (∀ inner, tryExtractFenced content = some inner →
        ∃ mid, inner.toList = '{' :: (mid ++ ['}']))
    ∧ (containsSub [btick, btick, btick] content.toList = false →
        tryExtractFenced content = none)
    ∧ invalidJsonError.retryable = true := by
  refine ⟨⟨?_, ?_⟩, ?_, ?_, ?_, ?_, rfl⟩
  · intro h
    unfold parseAndValidateResponse at h
    cases hp : parse (extractJsonStr content) with
    | none => rfl
    | some parsed =>
      rw [hp] at h
      exact absurd h (validateFields_ne_invalidJson parsed)
  · intro h
    unfold parseAndValidateResponse
    rw [h]
  · intro h
    unfold extractJsonStr
    rw [h]
  · intro inner h
    unfold extractJsonStr
    rw [h]
  · intro inner h
    unfold tryExtractFenced at h
    cases hf : findFence content.toList with
    | none => rw [hf] at h; exact absurd h (by simp)
    | some cs =>
      rw [hf] at h
      have hmk : String.mk cs = inner := by simpa using h
      subst hmk
      clear h
      revert cs
      generalize content.toList = l
      induction l with
      | nil => intro cs h; exact absurd h (by simp [findFence])
      | cons c cs0 ih =>
        intro cs h
        unfold findFence at h
        cases hm : matchFenceAt (c :: cs0) with
        | some inner0 =>
          rw [hm] at h
          cases h
          unfold matchFenceAt at hm
          cases hd : dropLead [btick, btick, btick] (c :: cs0) with
          | none => rw [hd] at hm; exact absurd hm (by simp)
          | some r1 =>
            rw [hd] at hm
            change (match (afterOptJson r1).dropWhile isJsWs with
              | c :: rest =>
                if c = '{' then Option.map (fun inner => '{' :: inner) (findLastClose rest)
                else none
              | [] => none) = some cs at hm
            cases hw : (afterOptJson r1).dropWhile isJsWs with
            | nil => rw [hw] at hm; exact absurd hm (by simp)
            | cons c2 rest =>
              rw [hw] at hm
              change (if c2 = '{' then
                  Option.map (fun inner => '{' :: inner) (findLastClose rest)
                else none) = some cs at hm
              by_cases hc2 : c2 = '{'
              · rw [if_pos hc2] at hm
                cases hfl : findLastClose rest with
                | none => rw [hfl] at hm; exact absurd hm (by simp)
                | some body =>
                  rw [hfl] at hm
                  have hm2 : '{' :: body = cs := by simpa using hm
                  obtain ⟨mid, hmid⟩ := findLastClose_shape rest body hfl
                  refine ⟨mid, ?_⟩
                  rw [← hm2, hmid]
                  rfl
              · rw [if_neg hc2] at hm
                exact absurd hm (by simp)
        | none =>
          rw [hm] at h
          exact ih cs h
  · intro h
    unfold tryExtractFenced
    rw [findFence_none_of_no_fence _ h]
    rfl

/-- Witness for C8: a fenced json block wrapping an object body is
extracted (the inner braces written via code points), and with a parser
failing on it the result is the retryable INVALID_JSON error. -/
theorem c8_fence_extraction_and_parse_witness :
    extractJsonStr "```json \x7b\"matchScore\": 10\x7d ```" = "\x7b\"matchScore\": 10\x7d"
    ∧ parseAndValidateResponse (fun _ => none) "```json \x7b\"matchScore\": 10\x7d ```" =
        .error invalidJsonError :=
  ⟨(c8_fence_extraction_and_parse (fun _ => none) _).2.2.1 _ (by rfl),
   ((c8_fence_extraction_and_parse (fun _ => none) _).1).mpr rfl⟩

/-- Counterexample for C8 as stated: the text below is literally a
fenced code block whose inner content is the word true, yet the
validator does not extract that inner content — the fence regex demands
a brace-delimited body, so the raw text is parsed verbatim. -/
theorem c8_counterexample :
    ("```true```" : String) = "```" ++ "true" ++ "```"
    ∧ extractJsonStr "```true```" = "```true```"
    ∧ ("```true```" : String) ≠ "true" :=
  ⟨rfl, rfl, by decide⟩

/-! ## Matching engine (AIMatchingEngine.matchJobs and helpers)

The chat completion is the external collaborator: each job carries an
oracle from attempt number (1-based) to the content of the completion
for that attempt, none standing for a falsy content or a thrown call.
Timing is recorded in an event trace: one attempt event per scoring
call, one retryDelay event per inter-attempt backoff pause, one
batchDelay event per inter-batch pause.  Within a batch the per-job
traces run concurrently in real time; the trace linearises them in
batch order, which the counting claims do not depend on. -/

/-- Observable events of one matchJobs run. -/
inductive Event where
  | attempt (jobId : String) (n : Nat) : Event
  | retryDelay (jobId : String) (ms : Nat) : Event
  | batchDelay (ms : Nat) : Event
deriving DecidableEq, Repr

/-- The degraded result synthesized by matchSingleJob when every retry
attempt failed: score 0, not suitable, no missing skills, zero gap and
the fixed analysis-failed reasoning string. -/
def degradedResult (job : JobListing) : MatchResult :=
  { jobId := job.jobId, jobTitle := job.jobTitle, location := job.location,
    requiredExperience := job.requiredExperience, matchScore := 0, suitable := false,
    missingSkills := [], experienceGap := 0,
    reasoning := "Analysis failed after multiple attempts. Please try again.",
    applyUrl := job.applyUrl }

/-- The final result constructed by performMatch on success: the job
fields and the validated data, with suitable recomputed as matchScore
at or above the threshold (the model suitable field is ignored). -/
def successResult (threshold : ℚ) (job : JobListing) (m : ParsedMatch) : MatchResult :=
  { jobId := job.jobId, jobTitle := job.jobTitle, location := job.location,
    requiredExperience := job.requiredExperience, matchScore := m.matchScore,
    suitable := decide (threshold ≤ m.matchScore), missingSkills := m.missingSkills,
    experienceGap := m.experienceGap, reasoning := m.reasoning, applyUrl := job.applyUrl }

/-- Embeds AIMatchingEngine.performMatch: a falsy completion content is
the retryable EMPTY_RESPONSE error; otherwise the content is parsed and
validated, and on success the final result is constructed. -/
def performMatch (parse : String → Option Json) (threshold : ℚ)
    (profile : CandidateProfile) (job : JobListing) (response : Option String) :
    Except ServiceError MatchResult :=
  match response with
  | none => .error emptyResponseError
  | some content =>
    if content = "" then .error emptyResponseError
    else
      match parseAndValidateResponse parse content with
      | .error e => .error e
      | .ok m => .ok (successResult threshold job m)

/-- The retry loop of matchSingleJob, counting down the remaining
attempts while counting the 1-based attempt number up: one attempt
event per call, a retryDelay of 1000 times the attempt number after a
failure that is not the last attempt, and the degraded result once no
attempts remain. -/
def matchAttemptsFrom (parse : String → Option Json) (threshold : ℚ)
    (profile : CandidateProfile) (job : JobListing) (responses : Nat → Option String) :
    Nat → Nat → MatchResult × List Event
  | 0, _ => (degradedResult job, [])
  | 1, a =>
    match performMatch parse threshold profile job (responses a) with
    | .ok res => (res, [.attempt job.jobId a])
    | .error _ => (degradedResult job, [.attempt job.jobId a])
  | r + 2, a =>
    match performMatch parse threshold profile job (responses a) with
    | .ok res => (res, [.attempt job.jobId a])
    | .error _ =>
      let p := matchAttemptsFrom parse threshold profile job responses (r + 1) (a + 1)
      (p.1, .attempt job.jobId a :: .retryDelay job.jobId (1000 * a) :: p.2)

/-- Embeds AIMatchingEngine.matchSingleJob: up to maxRetries attempts
starting at attempt number 1. -/
def matchSingleJob (parse : String → Option Json) (config : MatchingConfig)
    (threshold : ℚ) (profile : CandidateProfile) (job : JobListing)
    (responses : Nat → Option String) : MatchResult × List Event :=
  matchAttemptsFrom parse threshold profile job responses config.maxRetries 1

/-- The expected retry trace: attempt events numbered from a, with a
retryDelay of 1000 times the attempt number between consecutive
attempts and none after the last. -/
def retryTrace (jobId : String) : Nat → Nat → List Event
  | 0, _ => []
  | 1, a => [.attempt jobId a]
  | k + 2, a => .attempt jobId a :: .retryDelay jobId (1000 * a) :: retryTrace jobId (k + 1) (a + 1)

/-- The consecutive batches of size b the engine loop slices (the final
one possibly smaller).  The source loop advances its index by the batch
size, so b = 0 would never terminate; all theorems assume 0 < b. -/
def chunksOf {α : Type} (b : Nat) : List α → List (List α)
  | [] => []
  | x :: xs => (x :: xs.take (b - 1)) :: chunksOf b (xs.drop (b - 1))
termination_by l => l.length
decreasing_by simp [List.length_drop]; omega

/-- Embeds the batch loop of AIMatchingEngine.matchJobs: process one
batch (Promise.all over its jobs), then, unless the loop index has
reached the end, one batchDelay before the remaining batches. -/
def matchBatches (parse : String → Option Json) (config : MatchingConfig)
    (threshold : ℚ) (profile : CandidateProfile)
    (oracle : JobListing → Nat → Option String) :
    List JobListing → List MatchResult × List Event
  | [] => ([], [])
  | j :: js =>
    let batch := j :: js.take (config.batchSize - 1)
    let res := batch.map
      (fun job => (matchSingleJob parse config threshold profile job (oracle job)).1)
    let evs := (batch.map
      (fun job => (matchSingleJob parse config threshold profile job (oracle job)).2)).flatten
    if js.drop (config.batchSize - 1) = [] then (res, evs)
    else
      let p := matchBatches parse config threshold profile oracle
        (js.drop (config.batchSize - 1))
      (res ++ p.1, evs ++ Event.batchDelay config.batchDelay :: p.2)
termination_by l => l.length
decreasing_by simp [List.length_drop]; omega

/-- Descending-score order used by the final comparator of matchJobs:
a sorts before b when the score of b is at most the score of a. -/
def scoreGE (a b : MatchResult) : Prop := b.matchScore ≤ a.matchScore

instance : DecidableRel scoreGE :=
  fun a b => (inferInstance : Decidable (b.matchScore ≤ a.matchScore))

instance : IsTotal MatchResult scoreGE :=
  ⟨fun a b => le_total b.matchScore a.matchScore⟩

instance : IsTrans MatchResult scoreGE :=
  ⟨fun _ _ _ hab hbc => le_trans hbc hab⟩

/-- The final sort of matchJobs.  The source calls the ECMAScript
stable Array sort with comparator b.matchScore - a.matchScore; a stable
sort under a fixed total preorder has a unique output, so the stable
insertion sort below is extensionally the same function. -/
def sortByScoreDesc (l : List MatchResult) : List MatchResult :=
  List.insertionSort scoreGE l

/-- Embeds AIMatchingEngine.matchJobs: batch loop, then sort by score
descending. -/
def matchJobs (parse : String → Option Json) (config : MatchingConfig)
    (threshold : ℚ) (profile : CandidateProfile)
    (oracle : JobListing → Nat → Option String) (jobs : List JobListing) :
    List MatchResult × List Event :=
  let p := matchBatches parse config threshold profile oracle jobs
  (sortByScoreDesc p.1, p.2)

/-- The inter-batch joiner: the separator event goes exactly between
consecutive batch traces, never after the final one. -/
def joinWithDelay (sep : Event) : List (List Event) → List Event
  | [] => []
  | [x] => x
  | x :: y :: t => x ++ sep :: joinWithDelay sep (y :: t)

/-- Recognizes attempt events. -/
def isAttemptEv : Event → Bool
  | .attempt _ _ => true
  | _ => false

/-- Recognizes inter-batch delay events. -/
def isBatchDelayEv : Event → Bool
  | .batchDelay _ => true
  | _ => false

theorem performMatch_ok_inv (parse : String → Option Json) (threshold : ℚ)
    (profile : CandidateProfile) (job : JobListing) (response : Option String)
    (res : MatchResult) (h : performMatch parse threshold profile job response = .ok res) :
    res.jobId = job.jobId ∧ res.suitable = decide (threshold ≤ res.matchScore) := by
  cases response with
  | none => simp [performMatch] at h
  | some content =>
    by_cases hc : content = ""
    · simp [performMatch, hc] at h
    · cases hp : parseAndValidateResponse parse content with
      | error e => simp [performMatch, hc, hp] at h
      | ok m =>
        have h2 : performMatch parse threshold profile job (some content) =
            .ok (successResult threshold job m) := by
          simp [performMatch, hc, hp]
        have h3 := h2.symm.trans h
        cases h3
        exact ⟨rfl, rfl⟩

theorem matchAttemptsFrom_trace (parse : String → Option Json) (threshold : ℚ)
    (profile : CandidateProfile) (job : JobListing) (responses : Nat → Option String)
    (r : Nat) : ∀ a : Nat, ∃ k, k ≤ r ∧ (1 ≤ r → 1 ≤ k) ∧
      (matchAttemptsFrom parse threshold profile job responses r a).2 =
        retryTrace job.jobId k a := by
  induction r using Nat.strong_induction_on with
  | _ r ih =>
    intro a
    match r with
    | 0 => exact ⟨0, le_refl 0, fun h => absurd h (by omega), rfl⟩
    | 1 =>
      refine ⟨1, le_refl 1, fun _ => le_refl 1, ?_⟩
      cases hp : performMatch parse threshold profile job (responses a) with
      | ok res => simp [matchAttemptsFrom, hp, retryTrace]
      | error e => simp [matchAttemptsFrom, hp, retryTrace]
    | r + 2 =>
      cases hp : performMatch parse threshold profile job (responses a) with
      | ok res =>
        refine ⟨1, by omega, fun _ => le_refl 1, ?_⟩
        simp [matchAttemptsFrom, hp, retryTrace]
      | error e =>
        obtain ⟨k, hk, hk1, htr⟩ := ih (r + 1) (by omega) (a + 1)
        have hk1p : 1 ≤ k := hk1 (by omega)
        obtain ⟨k0, rfl⟩ : ∃ k0, k = k0 + 1 := ⟨k - 1, by omega⟩
        refine ⟨k0 + 2, by omega, fun _ => by omega, ?_⟩
        simp only [matchAttemptsFrom, hp, retryTrace]
        rw [htr]

theorem matchAttemptsFrom_allFail (parse : String → Option Json) (threshold : ℚ)
    (profile : CandidateProfile) (job : JobListing) (responses : Nat → Option String)
    (r : Nat) : ∀ a : Nat,
      (∀ i, a ≤ i → i < a + r →
        ∃ e, performMatch parse threshold profile job (responses i) = .error e) →
      matchAttemptsFrom parse threshold profile job responses r a =
        (degradedResult job, retryTrace job.jobId r a) := by
  induction r using Nat.strong_induction_on with
  | _ r ih =>
    intro a hf
    match r with
    | 0 => rfl
    | 1 =>
      obtain ⟨e, he⟩ := hf a (le_refl a) (by omega)
      simp [matchAttemptsFrom, he, retryTrace]
    | r + 2 =>
      obtain ⟨e, he⟩ := hf a (le_refl a) (by omega)
      have hrec := ih (r + 1) (by omega) (a + 1)
        (fun i h1 h2 => hf i (by omega) (by omega))
      simp only [matchAttemptsFrom, he, retryTrace]
      rw [hrec]

theorem matchAttemptsFrom_result (parse : String → Option Json) (threshold : ℚ)
    (profile : CandidateProfile) (job : JobListing) (responses : Nat → Option String)
    (r : Nat) : ∀ a : Nat,
      (matchAttemptsFrom parse threshold profile job responses r a).1 = degradedResult job
      ∨ ∃ i, a ≤ i ∧ i < a + r ∧
          performMatch parse threshold profile job (responses i) =
            .ok (matchAttemptsFrom parse threshold profile job responses r a).1 := by
  induction r using Nat.strong_induction_on with
  | _ r ih =>
    intro a
    match r with
    | 0 => exact Or.inl rfl
    | 1 =>
      cases hp : performMatch parse threshold profile job (responses a) with
      | ok res =>
        refine Or.inr ⟨a, le_refl a, by omega, ?_⟩
        simp [matchAttemptsFrom, hp]
      | error e =>
        refine Or.inl ?_
        simp [matchAttemptsFrom, hp]
    | r + 2 =>
      cases hp : performMatch parse threshold profile job (responses a) with
      | ok res =>
        refine Or.inr ⟨a, le_refl a, by omega, ?_⟩
        simp [matchAttemptsFrom, hp]
      | error e =>
        have hstep : (matchAttemptsFrom parse threshold profile job responses (r + 2) a).1 =
            (matchAttemptsFrom parse threshold profile job responses (r + 1) (a + 1)).1 := by
          simp [matchAttemptsFrom, hp]
        rcases ih (r + 1) (by omega) (a + 1) with h | ⟨i, h1, h2, h3⟩
        · exact Or.inl (by rw [hstep]; exact h)
        · exact Or.inr ⟨i, by omega, by omega, by rw [hstep]; exact h3⟩

theorem matchSingleJob_cases (parse : String → Option Json) (config : MatchingConfig)
    (threshold : ℚ) (profile : CandidateProfile) (job : JobListing)
    (responses : Nat → Option String) :
    (matchSingleJob parse config threshold profile job responses).1 = degradedResult job
    ∨ ∃ i, 1 ≤ i ∧ i ≤ config.maxRetries ∧
        performMatch parse threshold profile job (responses i) =
          .ok (matchSingleJob parse config threshold profile job responses).1 := by
  rcases matchAttemptsFrom_result parse threshold profile job responses
    config.maxRetries 1 with h | ⟨i, h1, h2, h3⟩
  · exact Or.inl h
  · exact Or.inr ⟨i, h1, by omega, h3⟩

theorem matchSingleJob_jobId (parse : String → Option Json) (config : MatchingConfig)
    (threshold : ℚ) (profile : CandidateProfile) (job : JobListing)
    (responses : Nat → Option String) :
    (matchSingleJob parse config threshold profile job responses).1.jobId = job.jobId := by
  rcases matchSingleJob_cases parse config threshold profile job responses with h | ⟨i, _, _, h⟩
  · rw [h]; rfl
  · exact (performMatch_ok_inv parse threshold profile job (responses i) _ h).1

theorem retryTrace_attemptCount (jobId : String) :
    ∀ (k a : Nat), ((retryTrace jobId k a).filter isAttemptEv).length = k
  | 0, a => rfl
  | 1, a => rfl
  | k + 2, a => by
    simp only [retryTrace, List.filter]
    have : isAttemptEv (.attempt jobId a) = true := rfl
    simp [isAttemptEv, retryTrace_attemptCount jobId (k + 1) (a + 1)]

theorem retryTrace_noBatchDelay (jobId : String) :
    ∀ (k a : Nat), (retryTrace jobId k a).filter isBatchDelayEv = []
  | 0, a => rfl
  | 1, a => rfl
  | k + 2, a => by
    simp [retryTrace, List.filter, isBatchDelayEv,
      retryTrace_noBatchDelay jobId (k + 1) (a + 1)]

/-- Induction principle following the batch loop: a list is processed
by peeling one chunk of size b off the front. -/
theorem chunkRec {α : Type} (b : Nat) {motive : List α → Prop} (base : motive [])
    (step : ∀ x xs, motive (xs.drop (b - 1)) → motive (x :: xs)) : ∀ l, motive l
  | [] => base
  | x :: xs => step x xs (chunkRec b base step (xs.drop (b - 1)))
termination_by l => l.length
decreasing_by simp [List.length_drop]; omega

theorem chunksOf_eq_nil_iff {α : Type} (b : Nat) (l : List α) :
    chunksOf b l = [] ↔ l = [] := by
  cases l with
  | nil => simp [chunksOf]
  | cons x xs => simp [chunksOf]

theorem chunksOf_cons {α : Type} (b : Nat) (x : α) (xs : List α) :
    chunksOf b (x :: xs) = (x :: xs.take (b - 1)) :: chunksOf b (xs.drop (b - 1)) := by
  simp [chunksOf]

theorem chunksOf_flatten {α : Type} (b : Nat) (hb : 0 < b) :
    ∀ l : List α, (chunksOf b l).flatten = l := by
  refine chunkRec b ?_ ?_
  · simp [chunksOf]
  · intro x xs ih
    rw [chunksOf_cons]
    simp only [List.flatten_cons]
    rw [ih]
    simp [List.take_append_drop]

theorem chunksOf_length {α : Type} (b : Nat) (hb : 0 < b) :
    ∀ l : List α, (chunksOf b l).length = (l.length + b - 1) / b := by
  refine chunkRec b ?_ ?_
  · have h0 : (b - 1) / b = 0 := Nat.div_eq_of_lt (by omega)
    simp [chunksOf, h0]
  · intro x xs ih
    rw [chunksOf_cons, List.length_cons, ih, List.length_drop, List.length_cons]
    rcases Nat.lt_or_ge xs.length (b - 1) with h | h
    · have h1 : xs.length - (b - 1) = 0 := by omega
      have h2 : (0 + b - 1) / b = 0 := Nat.div_eq_of_lt (by omega)
      have h3 : xs.length + 1 + b - 1 = xs.length + b := by omega
      rw [h1, h2, h3, Nat.add_div_right _ hb,
        Nat.div_eq_of_lt (show xs.length < b by omega)]
    · have h1 : xs.length - (b - 1) + b - 1 = xs.length := by omega
      have h3 : xs.length + 1 + b - 1 = xs.length + b := by omega
      rw [h1, h3, Nat.add_div_right _ hb]

theorem chunksOf_sizes {α : Type} (b : Nat) (hb : 0 < b) :
    ∀ (l : List α) (c : List α), c ∈ chunksOf b l → c ≠ [] ∧ c.length ≤ b := by
  refine chunkRec b ?_ ?_
  · intro c hc
    simp [chunksOf] at hc
  · intro x xs ih c hc
    rw [chunksOf_cons] at hc
    rcases List.mem_cons.mp hc with h | h
    · subst h
      refine ⟨by simp, ?_⟩
      have := List.length_take_le (b - 1) xs
      simp only [List.length_cons]
      omega
    · exact ih c h

theorem chunksOf_full_sizes {α : Type} (b : Nat) (hb : 0 < b) :
    ∀ (l : List α) (c : List α), c ∈ (chunksOf b l).dropLast → c.length = b := by
  refine chunkRec b ?_ ?_
  · intro c hc
    simp [chunksOf] at hc
  · intro x xs ih c hc
    rw [chunksOf_cons] at hc
    cases hrest : chunksOf b (xs.drop (b - 1)) with
    | nil =>
      rw [hrest] at hc
      simp at hc
    | cons y ys =>
      rw [hrest] at hc
      have hd : xs.drop (b - 1) ≠ [] := by
        intro h0
        rw [h0] at hrest
        simp [chunksOf] at hrest
      have hlen : b - 1 ≤ xs.length := by
        by_contra hcon
        push_neg at hcon
        exact hd (List.drop_eq_nil_of_le (by omega))
      rcases List.mem_cons.mp (by simpa using hc) with h | h
      · subst h
        simp only [List.length_cons, List.length_take]
        omega
      · exact ih c (by rw [hrest]; exact h)

theorem matchBatches_cons (parse : String → Option Json) (config : MatchingConfig)
    (threshold : ℚ) (profile : CandidateProfile)
    (oracle : JobListing → Nat → Option String) (x : JobListing) (xs : List JobListing) :
    matchBatches parse config threshold profile oracle (x :: xs) =
      (if xs.drop (config.batchSize - 1) = [] then
        ((x :: xs.take (config.batchSize - 1)).map
          (fun job => (matchSingleJob parse config threshold profile job (oracle job)).1),
         ((x :: xs.take (config.batchSize - 1)).map
          (fun job => (matchSingleJob parse config threshold profile job (oracle job)).2)).flatten)
      else
        ((x :: xs.take (config.batchSize - 1)).map
          (fun job => (matchSingleJob parse config threshold profile job (oracle job)).1) ++
           (matchBatches parse config threshold profile oracle
             (xs.drop (config.batchSize - 1))).1,
         ((x :: xs.take (config.batchSize - 1)).map
          (fun job => (matchSingleJob parse config threshold profile job (oracle job)).2)).flatten ++
           Event.batchDelay config.batchDelay ::
             (matchBatches parse config threshold profile oracle
               (xs.drop (config.batchSize - 1))).2)) := by
  rw [matchBatches]

theorem matchBatches_fst (parse : String → Option Json) (config : MatchingConfig)
    (threshold : ℚ) (profile : CandidateProfile)
    (oracle : JobListing → Nat → Option String) :
    ∀ jobs, (matchBatches parse config threshold profile oracle jobs).1 =
      jobs.map (fun j => (matchSingleJob parse config threshold profile j (oracle j)).1) := by
  refine chunkRec config.batchSize ?_ ?_
  · simp [matchBatches]
  · intro x xs ih
    rw [matchBatches_cons]
    by_cases hd : xs.drop (config.batchSize - 1) = []
    · rw [if_pos hd]
      have ht : xs.take (config.batchSize - 1) = xs :=
        List.take_of_length_le (by
          have := List.drop_eq_nil_iff.mp hd
          omega)
      rw [ht]
    · rw [if_neg hd]
      show (x :: xs.take (config.batchSize - 1)).map _ ++
        (matchBatches parse config threshold profile oracle
          (xs.drop (config.batchSize - 1))).1 = _
      rw [ih, ← List.map_append, List.cons_append, List.take_append_drop]

theorem matchBatches_snd (parse : String → Option Json) (config : MatchingConfig)
    (threshold : ℚ) (profile : CandidateProfile)
    (oracle : JobListing → Nat → Option String) :
    ∀ jobs, (matchBatches parse config threshold profile oracle jobs).2 =
      joinWithDelay (Event.batchDelay config.batchDelay)
        ((chunksOf config.batchSize jobs).map (fun c =>
          (c.map (fun j =>
            (matchSingleJob parse config threshold profile j (oracle j)).2)).flatten)) := by
  refine chunkRec config.batchSize ?_ ?_
  · simp [matchBatches, chunksOf, joinWithDelay]
  · intro x xs ih
    rw [matchBatches_cons, chunksOf_cons]
    by_cases hd : xs.drop (config.batchSize - 1) = []
    · rw [if_pos hd, hd]
      have hch : chunksOf config.batchSize ([] : List JobListing) = [] := by
        simp [chunksOf]
      rw [hch]
      simp [joinWithDelay]
    · rw [if_neg hd]
      cases hch : chunksOf config.batchSize (xs.drop (config.batchSize - 1)) with
      | nil => exact absurd ((chunksOf_eq_nil_iff _ _).mp hch) hd
      | cons c cs =>
        show ((x :: xs.take (config.batchSize - 1)).map _).flatten ++
          Event.batchDelay config.batchDelay ::
            (matchBatches parse config threshold profile oracle
              (xs.drop (config.batchSize - 1))).2 = _
        rw [ih, hch]
        simp only [List.map_cons, joinWithDelay]

theorem matchBatches_mem (parse : String → Option Json) (config : MatchingConfig)
    (threshold : ℚ) (profile : CandidateProfile)
    (oracle : JobListing → Nat → Option String) :
    ∀ jobs r, r ∈ (matchBatches parse config threshold profile oracle jobs).1 →
      ∃ j ∈ jobs, r = (matchSingleJob parse config threshold profile j (oracle j)).1 := by
  refine chunkRec config.batchSize ?_ ?_
  · intro r hr
    simp [matchBatches] at hr
  · intro x xs ih r hr
    rw [matchBatches_cons] at hr
    by_cases hd : xs.drop (config.batchSize - 1) = []
    · rw [if_pos hd] at hr
      simp only [List.mem_map] at hr
      obtain ⟨j, hj, hval⟩ := hr
      refine ⟨j, ?_, hval.symm⟩
      rcases List.mem_cons.mp hj with h | h
      · exact List.mem_cons.mpr (Or.inl h)
      · exact List.mem_cons.mpr (Or.inr (List.take_subset _ _ h))
    · rw [if_neg hd] at hr
      have hr2 : r ∈ (x :: xs.take (config.batchSize - 1)).map
            (fun job => (matchSingleJob parse config threshold profile job (oracle job)).1) ++
          (matchBatches parse config threshold profile oracle
            (xs.drop (config.batchSize - 1))).1 := hr
      rcases List.mem_append.mp hr2 with hmem | hrec
      · obtain ⟨j, hj, hval⟩ := List.mem_map.mp hmem
        refine ⟨j, ?_, hval.symm⟩
        rcases List.mem_cons.mp hj with h | h
        · exact List.mem_cons.mpr (Or.inl h)
        · exact List.mem_cons.mpr (Or.inr (List.take_subset _ _ h))
      · obtain ⟨j, hj, hval⟩ := ih r hrec
        exact ⟨j, List.mem_cons.mpr (Or.inr (List.drop_subset _ _ hj)), hval⟩

theorem filter_orderedInsert_score (q : ℚ) (x : MatchResult) :
    ∀ l : List MatchResult,
      (List.orderedInsert scoreGE x l).filter (fun r => decide (r.matchScore = q)) =
        if x.matchScore = q then
          x :: l.filter (fun r => decide (r.matchScore = q))
        else l.filter (fun r => decide (r.matchScore = q)) := by
  intro l
  induction l with
  | nil =>
    by_cases hx : x.matchScore = q <;> simp [List.orderedInsert, List.filter, hx]
  | cons b l ih =>
    simp only [List.orderedInsert]
    by_cases hr : scoreGE x b
    · rw [if_pos hr]
      by_cases hx : x.matchScore = q <;> by_cases hb : b.matchScore = q <;>
        simp [List.filter, hx, hb]
    · rw [if_neg hr]
      have hlt : x.matchScore < b.matchScore := not_le.mp hr
      by_cases hb : b.matchScore = q
      · have hx : ¬ x.matchScore = q := by
          intro h
          exact absurd (h.trans hb.symm) (ne_of_lt hlt)
        simp [List.filter, hx, hb, ih]
      · by_cases hx : x.matchScore = q <;> simp [List.filter, hb, hx, ih]

theorem filter_sortByScoreDesc (q : ℚ) :
    ∀ l : List MatchResult,
      (sortByScoreDesc l).filter (fun r => decide (r.matchScore = q)) =
        l.filter (fun r => decide (r.matchScore = q)) := by
  intro l
  induction l with
  | nil => rfl
  | cons x l ih =>
    show (List.orderedInsert scoreGE x (List.insertionSort scoreGE l)).filter _ = _
    rw [filter_orderedInsert_score]
    by_cases hx : x.matchScore = q
    · rw [if_pos hx]
      show x :: (sortByScoreDesc l).filter _ = _
      rw [ih]
      simp [List.filter, hx]
    · rw [if_neg hx]
      show (sortByScoreDesc l).filter _ = _
      rw [ih]
      simp [List.filter, hx]

/-! ## Concrete fixtures for witnesses and counterexamples -/

/-- A concrete job listing. -/
def job0 : JobListing :=
  { jobId := "job-1", jobTitle := "Backend Engineer", location := "Remote",
    requiredExperience := 5, requiredSkills := ["TypeScript", "Node.js"],
    description := "Build services", applyUrl := "https://jobs.example.com/job-1" }

/-- A concrete candidate profile. -/
def profile0 : CandidateProfile :=
  { skills := ["testing"], yearsOfExperience := 2, technologies := ["TypeScript"],
    previousRoles := ["Developer"], rawText := "resume text" }

/-- A JSON.parse stand-in that always fails. -/
def parseFail : String → Option Json := fun _ => none

/-- A chat-completion oracle whose every response is empty or thrown. -/
def oracleEmpty : JobListing → Nat → Option String := fun _ _ => none

/-! ## Claims about the matching engine -/

/-- Claim C1, amended: for a positive threshold every returned result,
degraded ones included, satisfies suitable = (matchScore at or above
threshold); results produced by a successful scoring call satisfy it
for every threshold, but a degraded result fixes suitable = false and
matchScore = 0, so at threshold 0 (a caller-visible value) the equality
fails. -/
theorem c1_suitable_recomputed (parse : String → Option Json) (config : MatchingConfig)
    (threshold : ℚ) (profile : CandidateProfile)
    (oracle : JobListing → Nat → Option String) (jobs : List JobListing)
    (hT : 0 < threshold) :
    ∀ r ∈ (matchJobs parse config threshold profile oracle jobs).1,
      r.suitable = decide (threshold ≤ r.matchScore) := by
  intro r hr
  have hperm : (matchJobs parse config threshold profile oracle jobs).1.Perm
      (matchBatches parse config threshold profile oracle jobs).1 :=
    List.perm_insertionSort scoreGE _
  have hmem : r ∈ (matchBatches parse config threshold profile oracle jobs).1 :=
    hperm.mem_iff.mp hr
  obtain ⟨j, hj, rfl⟩ := matchBatches_mem parse config threshold profile oracle jobs r hmem
  rcases matchSingleJob_cases parse config threshold profile j (oracle j) with h | ⟨i, _, _, h⟩
  · rw [h]
    have hno : ¬ (threshold ≤ (degradedResult j).matchScore) := not_le.mpr hT
    show false = decide (threshold ≤ (degradedResult j).matchScore)
    simp [hno]
  · exact (performMatch_ok_inv parse threshold profile j ((oracle j) i) _ h).2

/-- Counterexample to Claim C1 as stated: with threshold 0 and a job
whose scoring always fails, the degraded result has suitable = false
although its matchScore 0 is at or above the threshold. -/
theorem c1_counterexample :
    ∃ r ∈ (matchJobs parseFail defaultConfig 0 profile0 oracleEmpty [job0]).1,
      r.suitable = false ∧ (0 : ℚ) ≤ r.matchScore
        ∧ r.suitable ≠ decide ((0 : ℚ) ≤ r.matchScore) := by
  have hlist : (matchJobs parseFail defaultConfig 0 profile0 oracleEmpty [job0]).1 =
      [degradedResult job0] := by
    show sortByScoreDesc
      (matchBatches parseFail defaultConfig 0 profile0 oracleEmpty [job0]).1 = _
    rw [matchBatches_fst]
    rfl
  refine ⟨degradedResult job0, by rw [hlist]; exact List.mem_singleton.mpr rfl,
    rfl, le_refl 0, ?_⟩
  show (false : Bool) ≠ decide ((0 : ℚ) ≤ 0)
  decide

/-- Witness for C1: at the positive threshold 70 even the degraded
result of an always-failing job satisfies the recomputed equality. -/
theorem c1_suitable_recomputed_witness :
    (degradedResult job0).suitable = decide ((70 : ℚ) ≤ (degradedResult job0).matchScore) := by
  have hlist : (matchJobs parseFail defaultConfig 70 profile0 oracleEmpty [job0]).1 =
      [degradedResult job0] := by
    show sortByScoreDesc
      (matchBatches parseFail defaultConfig 70 profile0 oracleEmpty [job0]).1 = _
    rw [matchBatches_fst]
    rfl
  exact c1_suitable_recomputed parseFail defaultConfig 70 profile0 oracleEmpty [job0]
    (by norm_num) (degradedResult job0) (by rw [hlist]; exact List.mem_singleton.mpr rfl)

/-- Claim C2: one result per input job (the unsorted pipeline output
carries exactly the input jobIds in input order), and the returned
sequence is a permutation of it, sorted by matchScore descending, with
every equal-score class appearing in pipeline (input) order — the
filter equation is the standard statement of sort stability. -/
theorem c2_ordered_results (parse : String → Option Json) (config : MatchingConfig)
    (threshold : ℚ) (profile : CandidateProfile)
    (oracle : JobListing → Nat → Option String) (jobs : List JobListing)
    (hB : 0 < config.batchSize) :
    ((matchBatches parse config threshold profile oracle jobs).1.map (fun r => r.jobId) =
      jobs.map (fun j => j.jobId))
    ∧ (matchJobs parse config threshold profile oracle jobs).1.Perm
        (matchBatches parse config threshold profile oracle jobs).1
    ∧ List.Sorted scoreGE (matchJobs parse config threshold profile oracle jobs).1
    ∧ ∀ q : ℚ, (matchJobs parse config threshold profile oracle jobs).1.filter
          (fun r => decide (r.matchScore = q)) =
        (matchBatches parse config threshold profile oracle jobs).1.filter
          (fun r => decide (r.matchScore = q)) := by
  refine ⟨?_, List.perm_insertionSort scoreGE _, List.sorted_insertionSort scoreGE _, ?_⟩
  · rw [matchBatches_fst, List.map_map]
    apply List.map_congr_left
    intro j hj
    exact matchSingleJob_jobId parse config threshold profile j (oracle j)
  · intro q
    exact filter_sortByScoreDesc q _

/-- Witness for C2: with one job the pipeline output carries exactly
that jobId. -/
theorem c2_ordered_results_witness :
    (matchBatches parseFail defaultConfig 70 profile0 oracleEmpty [job0]).1.map
      (fun r => r.jobId) = [job0].map (fun j => j.jobId) :=
  (c2_ordered_results parseFail defaultConfig 70 profile0 oracleEmpty [job0] (by decide)).1

theorem matchSingleJob_noBatchDelay (parse : String → Option Json) (config : MatchingConfig)
    (threshold : ℚ) (profile : CandidateProfile) (job : JobListing)
    (responses : Nat → Option String) :
    (matchSingleJob parse config threshold profile job responses).2.filter isBatchDelayEv = [] := by
  obtain ⟨k, _, _, htr⟩ := matchAttemptsFrom_trace parse threshold profile job responses
    config.maxRetries 1
  rw [show (matchSingleJob parse config threshold profile job responses).2 =
    retryTrace job.jobId k 1 from htr, retryTrace_noBatchDelay]

theorem batchTrace_noBatchDelay (parse : String → Option Json) (config : MatchingConfig)
    (threshold : ℚ) (profile : CandidateProfile)
    (oracle : JobListing → Nat → Option String) :
    ∀ c : List JobListing,
      ((c.map (fun j => (matchSingleJob parse config threshold profile j (oracle j)).2)).flatten).filter
        isBatchDelayEv = [] := by
  intro c
  induction c with
  | nil => rfl
  | cons j c ih =>
    simp only [List.map_cons, List.flatten_cons, List.filter_append, ih,
      matchSingleJob_noBatchDelay, List.append_nil]

theorem joinWithDelay_batch_count (ms : Nat) :
    ∀ parts : List (List Event), (∀ p ∈ parts, p.filter isBatchDelayEv = []) →
      ((joinWithDelay (Event.batchDelay ms) parts).filter isBatchDelayEv).length =
        parts.length - 1
  | [], _ => rfl
  | [x], h => by
    show ((x.filter isBatchDelayEv).length = 0)
    rw [h x (List.mem_singleton.mpr rfl)]
    rfl
  | x :: y :: t, h => by
    have hrec := joinWithDelay_batch_count ms (y :: t)
      (fun p hp => h p (List.mem_cons.mpr (Or.inr hp)))
    show (((x ++ Event.batchDelay ms :: joinWithDelay (Event.batchDelay ms) (y :: t)).filter
      isBatchDelayEv).length = (y :: t).length + 1 - 1)
    rw [List.filter_append, h x (List.mem_cons.mpr (Or.inl rfl))]
    have hbd : isBatchDelayEv (Event.batchDelay ms) = true := rfl
    simp only [List.nil_append, List.filter_cons, hbd, if_true, List.length_cons, hrec]
    omega

/-- Claim C4: with batch size B the engine partitions the N jobs into
consecutive nonempty batches of size at most B (all but the last of
size exactly B), there are ceil(N/B) of them, the event trace is the
batch traces joined by single inter-batch delays (so never one after
the final batch), and the inter-batch delay fires exactly
ceil(N/B) - 1 times (natural subtraction, so zero times for zero
jobs). -/
theorem c4_batching (parse : String → Option Json) (config : MatchingConfig)
    (threshold : ℚ) (profile : CandidateProfile)
    (oracle : JobListing → Nat → Option String) (jobs : List JobListing)
    (hB : 0 < config.batchSize) :
    ((chunksOf config.batchSize jobs).flatten = jobs)
    ∧ (∀ c ∈ chunksOf config.batchSize jobs, c ≠ [] ∧ c.length ≤ config.batchSize)
    ∧ (∀ c ∈ (chunksOf config.batchSize jobs).dropLast, c.length = config.batchSize)
    ∧ ((chunksOf config.batchSize jobs).length =
        (jobs.length + config.batchSize - 1) / config.batchSize)
    ∧ ((matchJobs parse config threshold profile oracle jobs).2 =
        joinWithDelay (Event.batchDelay config.batchDelay)
          ((chunksOf config.batchSize jobs).map (fun c =>
            (c.map (fun j =>
              (matchSingleJob parse config threshold profile j (oracle j)).2)).flatten)))
    ∧ (((matchJobs parse config threshold profile oracle jobs).2.filter
          isBatchDelayEv).length = (chunksOf config.batchSize jobs).length - 1) := by
  refine ⟨chunksOf_flatten _ hB jobs, fun c hc => chunksOf_sizes _ hB jobs c hc,
    fun c hc => chunksOf_full_sizes _ hB jobs c hc, chunksOf_length _ hB jobs, ?_, ?_⟩
  · show (matchBatches parse config threshold profile oracle jobs).2 = _
    exact matchBatches_snd parse config threshold profile oracle jobs
  · show ((matchBatches parse config threshold profile oracle jobs).2.filter
      isBatchDelayEv).length = _
    rw [matchBatches_snd]
    rw [joinWithDelay_batch_count config.batchDelay _ ?_, List.length_map]
    intro p hp
    obtain ⟨c, _, rfl⟩ := List.mem_map.mp hp
    exact batchTrace_noBatchDelay parse config threshold profile oracle c

/-- Witness for C4: with a single job there is one batch and the
inter-batch delay never fires. -/
theorem c4_batching_witness :
    ((matchJobs parseFail defaultConfig 70 profile0 oracleEmpty [job0]).2.filter
      isBatchDelayEv).length = (chunksOf defaultConfig.batchSize [job0]).length - 1 :=
  (c4_batching parseFail defaultConfig 70 profile0 oracleEmpty [job0] (by decide)).2.2.2.2.2

/-- Claim C3: each job is scored at most maxRetries times, the per-job
trace is exactly attempts 1..k with a delay of 1000 times the attempt
number between consecutive attempts and none after the last (the
retryTrace shape), exhausting every attempt yields the degraded result
with its fixed fields after exactly maxRetries attempts, and no
combination of per-job failures changes the number of results matchJobs
returns. -/
theorem c3_retry_and_degradation (parse : String → Option Json) (config : MatchingConfig)
    (threshold : ℚ) (profile : CandidateProfile) (job : JobListing)
    (responses : Nat → Option String) :
    (∃ k, k ≤ config.maxRetries ∧
      (matchSingleJob parse config threshold profile job responses).2 =
        retryTrace job.jobId k 1)
    ∧ (((matchSingleJob parse config threshold profile job responses).2.filter
        isAttemptEv).length ≤ config.maxRetries)
    ∧ ((∀ i, 1 ≤ i → i ≤ config.maxRetries →
          ∃ e, performMatch parse threshold profile job (responses i) = .error e) →
        matchSingleJob parse config threshold profile job responses =
          (degradedResult job, retryTrace job.jobId config.maxRetries 1))
    ∧ (degradedResult job).matchScore = 0
    ∧ (degradedResult job).suitable = false
    ∧ (degradedResult job).missingSkills = []
    ∧ (degradedResult job).experienceGap = 0
    ∧ (degradedResult job).reasoning =
        "Analysis failed after multiple attempts. Please try again."
    ∧ (∀ (oracle : JobListing → Nat → Option String) (jobs : List JobListing),
        0 < config.batchSize →
        ((matchJobs parse config threshold profile oracle jobs).1).length = jobs.length) := by
  obtain ⟨k, hk, hk1, htr⟩ := matchAttemptsFrom_trace parse threshold profile job responses
    config.maxRetries 1
  refine ⟨⟨k, hk, htr⟩, ?_, ?_, rfl, rfl, rfl, rfl, rfl, ?_⟩
  · rw [show (matchSingleJob parse config threshold profile job responses).2 =
      retryTrace job.jobId k 1 from htr, retryTrace_attemptCount]
    exact hk
  · intro hf
    exact matchAttemptsFrom_allFail parse threshold profile job responses
      config.maxRetries 1 (fun i h1 h2 => hf i h1 (by omega))
  · intro oracle jobs hB
    show (sortByScoreDesc (matchBatches parse config threshold profile oracle jobs).1).length = _
    unfold sortByScoreDesc
    rw [(List.perm_insertionSort scoreGE _).length_eq, matchBatches_fst, List.length_map]

/-- Witness for C3: an always-failing job degrades after exactly the
default three attempts, with the full backoff trace. -/
theorem c3_retry_and_degradation_witness :
    matchSingleJob parseFail defaultConfig 70 profile0 job0 (oracleEmpty job0) =
      (degradedResult job0, retryTrace job0.jobId defaultConfig.maxRetries 1) :=
  (c3_retry_and_degradation parseFail defaultConfig 70 profile0 job0
    (oracleEmpty job0)).2.2.1 (fun i _ _ => ⟨emptyResponseError, rfl⟩)

/-! ## Scraping service (scrapeCareerPage)

The headless-browser interactions are the external collaborators: the
links the landing page yields (extractJobLinks) and the per-link detail
extraction (extractJobDetails, none when the page had no title or threw,
both of which the source skips gracefully).  The embedded function is the
control flow of scrapeCareerPage after the landing page has loaded. -/

/-- The non-retryable NO_JOBS_FOUND service error. -/
def noJobsFoundError : ServiceError :=
  ⟨"No job listings found on the career page", "scraping", "NO_JOBS_FOUND", false⟩

/-- The retryable EXTRACTION_FAILED service error. -/
def extractionFailedError : ServiceError :=
  ⟨"Failed to extract details from any job listings", "scraping", "EXTRACTION_FAILED", true⟩

/-- Embeds scrapeCareerPage: zero links is the non-retryable
NO_JOBS_FOUND error; otherwise the link list is truncated to maxJobs,
each link is processed (failures skipped), and zero successfully
extracted listings is the retryable EXTRACTION_FAILED error. -/
def scrapeCareerPage (jobLinks : List String) (extract : String → Option JobListing)
    (maxJobs : Nat) : Except ServiceError (List JobListing) :=
  if jobLinks.length = 0 then .error noJobsFoundError
  else
    let jobListings := (jobLinks.take maxJobs).filterMap extract
    if jobListings.length = 0 then .error extractionFailedError
    else .ok jobListings

/-- Claim C7: zero job links fail with the non-retryable NO_JOBS_FOUND
error, and a successful return holds the extractions of the first
maxJobs links — between 1 and maxJobs listings. -/
theorem c7_scraper_bounds (jobLinks : List String) (extract : String → Option JobListing)
    (maxJobs : Nat) :
    (jobLinks = [] →
      scrapeCareerPage jobLinks extract maxJobs = .error noJobsFoundError
      ∧ noJobsFoundError.retryable = false)
    ∧ (∀ ls, scrapeCareerPage jobLinks extract maxJobs = .ok ls →
        ls = (jobLinks.take maxJobs).filterMap extract
        ∧ 1 ≤ ls.length ∧ ls.length ≤ maxJobs) := by
  constructor
  · intro h
    subst h
    exact ⟨rfl, rfl⟩
  · intro ls hls
    unfold scrapeCareerPage at hls
    by_cases h0 : jobLinks.length = 0
    · rw [if_pos h0] at hls
      exact absurd hls (by simp)
    · rw [if_neg h0] at hls
      by_cases h1 : ((jobLinks.take maxJobs).filterMap extract).length = 0
      · rw [if_pos h1] at hls
        exact absurd hls (by simp)
      · rw [if_neg h1] at hls
        have hval : (jobLinks.take maxJobs).filterMap extract = ls := by
          have := hls
          simp only [Except.ok.injEq] at this
          exact this
        refine ⟨hval.symm, ?_, ?_⟩
        · rw [← hval]
          omega
        · rw [← hval]
          calc ((jobLinks.take maxJobs).filterMap extract).length
              ≤ (jobLinks.take maxJobs).length := List.length_filterMap_le _ _
            _ ≤ maxJobs := List.length_take_le _ _

/-- Witness for C7: one link whose extraction succeeds gives exactly
one listing, within the bounds. -/
theorem c7_scraper_bounds_witness :
    ([job0] : List JobListing) = (["https://jobs.example.com/grid"].take 10).filterMap
      (fun _ => some job0)
    ∧ 1 ≤ ([job0] : List JobListing).length ∧ ([job0] : List JobListing).length ≤ 10 :=
  (c7_scraper_bounds ["https://jobs.example.com/grid"] (fun _ => some job0) 10).2 [job0] rfl

/-! ## Input validation (validation.ts)

The Number() coercion of the caller value is the external runtime
facility: the embedded functions receive its outcome, some q for a
finite numeric value and none for NaN (non-numeric input).  JavaScript
number values reachable here are finite, so rationals model them;
Number.isInteger corresponds to denominator 1. -/

/-- Embeds validateNumericRange: NaN, non-integer and out-of-range
values each raise their ValidationError, in source order. -/
def validateNumericRange (value : Option ℚ) (fieldName : String) (lo hi : ℚ) :
    Except ValidationError Unit :=
  match value with
  | none => .error ⟨fieldName ++ " must be a valid number", fieldName, "INVALID_NUMBER"⟩
  | some q =>
    if q.den ≠ 1 then
      .error ⟨fieldName ++ " must be an integer", fieldName, "NOT_INTEGER"⟩
    else if q < lo ∨ hi < q then
      .error ⟨fieldName ++ " must be between " ++ toString lo ++ " and " ++ toString hi,
        fieldName, "OUT_OF_RANGE"⟩
    else .ok ()

/-- Embeds validateMaxJobs: range 1 to 100. -/
def validateMaxJobs (maxJobs : Option ℚ) : Except ValidationError Unit :=
  validateNumericRange maxJobs "maxJobs" 1 100

/-- Embeds validateThreshold: range 0 to 100. -/
def validateThreshold (threshold : Option ℚ) : Except ValidationError Unit :=
  validateNumericRange threshold "threshold" 0 100

theorem validateNumericRange_ok_iff (value : Option ℚ) (fieldName : String) (lo hi : ℚ) :
    validateNumericRange value fieldName lo hi = .ok () ↔
      ∃ q, value = some q ∧ q.den = 1 ∧ lo ≤ q ∧ q ≤ hi := by
  cases value with
  | none => simp [validateNumericRange]
  | some q =>
    simp only [validateNumericRange]
    by_cases hden : q.den ≠ 1
    · rw [if_pos hden]
      simp [hden]
    · rw [if_neg hden]
      push_neg at hden
      by_cases hrange : q < lo ∨ hi < q
      · rw [if_pos hrange]
        simp only [reduceCtorEq, false_iff]
        rintro ⟨q2, hq2, _, hle1, hle2⟩
        cases hq2
        rcases hrange with h | h
        · exact absurd hle1 (not_le.mpr h)
        · exact absurd hle2 (not_le.mpr h)
      · rw [if_neg hrange]
        push_neg at hrange
        simp only [true_iff]
        exact ⟨q, rfl, hden, hrange.1, hrange.2⟩

/-- Claim C9: validateMaxJobs accepts exactly the values representing
an integer in [1,100], validateThreshold exactly those representing an
integer in [0,100]; every other coerced value raises a ValidationError
(the kind the spec classifies as always non-retryable). -/
theorem c9_numeric_ranges (value : Option ℚ) :
    (validateMaxJobs value = .ok () ↔
      ∃ n : ℤ, value = some (n : ℚ) ∧ 1 ≤ n ∧ n ≤ 100)
    ∧ (validateThreshold value = .ok () ↔
      ∃ n : ℤ, value = some (n : ℚ) ∧ 0 ≤ n ∧ n ≤ 100)
    ∧ (validateMaxJobs value ≠ .ok () → ∃ e, validateMaxJobs value = .error e)
    ∧ (validateThreshold value ≠ .ok () → ∃ e, validateThreshold value = .error e) := by
  have hconv : ∀ (lo hi : ℚ) (name : String),
      (validateNumericRange value name lo hi = .ok () ↔
        ∃ n : ℤ, value = some (n : ℚ) ∧ lo ≤ (n : ℚ) ∧ (n : ℚ) ≤ hi) := by
    intro lo hi name
    rw [validateNumericRange_ok_iff]
    constructor
    · rintro ⟨q, hq, hden, h1, h2⟩
      refine ⟨q.num, ?_, ?_, ?_⟩
      · rw [hq, (Rat.den_eq_one_iff q).mp hden]
      · rw [(Rat.den_eq_one_iff q).mp hden]; exact h1
      · rw [(Rat.den_eq_one_iff q).mp hden]; exact h2
    · rintro ⟨n, hn, h1, h2⟩
      exact ⟨(n : ℚ), hn, Rat.den_intCast n, h1, h2⟩
  refine ⟨?_, ?_, ?_, ?_⟩
  · rw [show validateMaxJobs value = validateNumericRange value "maxJobs" 1 100 from rfl,
      hconv 1 100 "maxJobs"]
    constructor
    · rintro ⟨n, hn, h1, h2⟩
      exact ⟨n, hn, by exact_mod_cast h1, by exact_mod_cast h2⟩
    · rintro ⟨n, hn, h1, h2⟩
      exact ⟨n, hn, by exact_mod_cast h1, by exact_mod_cast h2⟩
  · rw [show validateThreshold value = validateNumericRange value "threshold" 0 100 from rfl,
      hconv 0 100 "threshold"]
    constructor
    · rintro ⟨n, hn, h1, h2⟩
      exact ⟨n, hn, by exact_mod_cast h1, by exact_mod_cast h2⟩
    · rintro ⟨n, hn, h1, h2⟩
      exact ⟨n, hn, by exact_mod_cast h1, by exact_mod_cast h2⟩
  · intro h
    cases hv : validateMaxJobs value with
    | ok u => cases u; exact absurd hv h
    | error e => exact ⟨e, rfl⟩
  · intro h
    cases hv : validateThreshold value with
    | ok u => cases u; exact absurd hv h
    | error e => exact ⟨e, rfl⟩

/-- Witness for C9: the value 50 passes both validators, via the iff. -/
theorem c9_numeric_ranges_witness :
    validateMaxJobs (some 50) = .ok () ∧ validateThreshold (some 50) = .ok () :=
  ⟨(c9_numeric_ranges (some 50)).1.mpr ⟨50, by norm_num⟩,
   (c9_numeric_ranges (some 50)).2.1.mpr ⟨50, by norm_num⟩⟩

/-! ## URL validation (validateUrl)

The WHATWG URL constructor is the external runtime facility: it is
passed in as parseURL, none modelling the thrown TypeError, some u the
parsed URL with its protocol and hostname fields.  A non-string
argument is modelled as none (the source rejects it together with the
empty string in its first falsy-or-non-string check). -/

/-- The protocol and hostname of a parsed WHATWG URL. -/
structure URLRec where
  protocol : String
  hostname : String

/-- The dangerous substrings rejected by validateUrl. -/
def dangerousPatterns : List String :=
  ["javascript:", "data:", "file:", "vbscript:", "<script", "onerror=", "onclick="]

/-- The private address range markers rejected in production. -/
def privateIpStarts : List String :=
  ["192.168.", "10.", "172.16.", "172.17.", "172.18.", "172.19.", "172.20.",
   "172.21.", "172.22.", "172.23.", "172.24.", "172.25.", "172.26.", "172.27.",
   "172.28.", "172.29.", "172.30.", "172.31."]

/-- JavaScript toLowerCase restricted to the code points appearing in
URL validation (ASCII case folding), written over the character list so
that it evaluates by reduction. -/
def toLowerStr (s : String) : String := String.mk (s.toList.map Char.toLower)

/-- Substring containment on strings. -/
def strContains (hay needle : String) : Bool := containsSub needle.toList hay.toList

/-- Embeds validateUrl: non-string or empty input, an unparsable URL, a
protocol other than http or https, production-only localhost and
private-address checks, then the dangerous-substring scan over the
lowercased input. -/
def validateUrl (parseURL : String → Option URLRec) (production : Bool)
    (url : Option String) : Except ValidationError Unit :=
  match url with
  | none => .error ⟨"URL is required and must be a string", "url", "INVALID_URL"⟩
  | some s =>
    if s = "" then .error ⟨"URL is required and must be a string", "url", "INVALID_URL"⟩
    else
      match parseURL s with
      | none => .error ⟨"Invalid URL format", "url", "INVALID_URL_FORMAT"⟩
      | some parsed =>
        if ¬ (parsed.protocol = "http:" ∨ parsed.protocol = "https:") then
          .error ⟨"URL must use HTTP or HTTPS protocol", "url", "INVALID_PROTOCOL"⟩
        else if production ∧ (toLowerStr parsed.hostname = "localhost"
            ∨ toLowerStr parsed.hostname = "127.0.0.1") then
          .error ⟨"Localhost URLs are not allowed in production", "url",
            "LOCALHOST_NOT_ALLOWED"⟩
        else if production ∧ privateIpStarts.any
            (fun p => leadsWith p.toList (toLowerStr parsed.hostname).toList) then
          .error ⟨"Private IP addresses are not allowed", "url", "PRIVATE_IP_NOT_ALLOWED"⟩
        else if dangerousPatterns.any (fun p => strContains (toLowerStr s) p) then
          .error ⟨"URL contains potentially dangerous content", "url", "DANGEROUS_URL"⟩
        else .ok ()

/-- The acceptance condition of Claim C10: a non-empty string that
parses with protocol http or https and whose lowercased text holds none
of the dangerous substrings. -/
def urlAccepted (parseURL : String → Option URLRec) (url : Option String) : Prop :=
  ∃ s u, url = some s ∧ s ≠ "" ∧ parseURL s = some u ∧
    (u.protocol = "http:" ∨ u.protocol = "https:") ∧
    ∀ p ∈ dangerousPatterns, strContains (toLowerStr s) p = false

/-- Claim C10: validateUrl accepts only inputs meeting the acceptance
condition (so every other input, non-strings and the empty string
included, raises a ValidationError), and outside production mode the
condition is exactly acceptance; production mode only adds further
rejections (localhost, private ranges). -/
theorem c10_validate_url (parseURL : String → Option URLRec) (production : Bool)
    (url : Option String) :
    (validateUrl parseURL production url = .ok () → urlAccepted parseURL url)
    ∧ (production = false →
        (validateUrl parseURL production url = .ok () ↔ urlAccepted parseURL url)) := by
  cases url with
  | none =>
    constructor
    · intro h
      exact absurd h (by simp [validateUrl])
    · intro _
      constructor
      · intro h
        exact absurd h (by simp [validateUrl])
      · rintro ⟨s, u, hs, _⟩
        exact absurd hs (by simp)
  | some s =>
    by_cases hs : s = ""
    · subst hs
      constructor
      · intro h
        exact absurd h (by simp [validateUrl])
      · intro _
        constructor
        · intro h
          exact absurd h (by simp [validateUrl])
        · rintro ⟨s2, u, hs2, hne, _⟩
          cases hs2
          exact absurd rfl hne
    · cases hp : parseURL s with
      | none =>
        have hval : ∀ pr, validateUrl parseURL pr (some s) =
            .error ⟨"Invalid URL format", "url", "INVALID_URL_FORMAT"⟩ := by
          intro pr
          simp only [validateUrl]
          rw [if_neg hs, hp]
        constructor
        · intro h
          rw [hval] at h
          exact absurd h (by simp)
        · intro _
          constructor
          · intro h
            rw [hval] at h
            exact absurd h (by simp)
          · rintro ⟨s2, u, hs2, _, hu, _⟩
            cases hs2
            rw [hp] at hu
            exact absurd hu (by simp)
      | some parsed =>
        have hval : ∀ pr, validateUrl parseURL pr (some s) =
            (if ¬ (parsed.protocol = "http:" ∨ parsed.protocol = "https:") then
              .error ⟨"URL must use HTTP or HTTPS protocol", "url", "INVALID_PROTOCOL"⟩
            else if pr ∧ (toLowerStr parsed.hostname = "localhost"
                ∨ toLowerStr parsed.hostname = "127.0.0.1") then
              .error ⟨"Localhost URLs are not allowed in production", "url",
                "LOCALHOST_NOT_ALLOWED"⟩
            else if pr ∧ privateIpStarts.any
                (fun p => leadsWith p.toList (toLowerStr parsed.hostname).toList) then
              .error ⟨"Private IP addresses are not allowed", "url",
                "PRIVATE_IP_NOT_ALLOWED"⟩
            else if dangerousPatterns.any (fun p => strContains (toLowerStr s) p) then
              .error ⟨"URL contains potentially dangerous content", "url", "DANGEROUS_URL"⟩
            else .ok ()) := by
          intro pr
          simp only [validateUrl]
          rw [if_neg hs, hp]
        by_cases hproto : parsed.protocol = "http:" ∨ parsed.protocol = "https:"
        · by_cases hdang : dangerousPatterns.any (fun p => strContains (toLowerStr s) p) = true
          · have herr : ∀ pr, validateUrl parseURL pr (some s) ≠ .ok () := by
              intro pr h
              rw [hval pr, if_neg (not_not_intro hproto)] at h
              by_cases hl : pr ∧ (toLowerStr parsed.hostname = "localhost"
                  ∨ toLowerStr parsed.hostname = "127.0.0.1")
              · rw [if_pos hl] at h
                exact absurd h (by simp)
              · rw [if_neg hl] at h
                by_cases hpriv : pr ∧ privateIpStarts.any
                    (fun p => leadsWith p.toList (toLowerStr parsed.hostname).toList) = true
                · rw [if_pos (by simpa using hpriv)] at h
                  exact absurd h (by simp)
                · rw [if_neg (by simpa using hpriv), if_pos hdang] at h
                  exact absurd h (by simp)
            refine ⟨fun h => absurd h (herr production), fun hprod => ?_⟩
            subst hprod
            refine ⟨fun h => absurd h (herr false), ?_⟩
            rintro ⟨s2, u, hs2, _, hu, _, hnod⟩
            cases hs2
            rw [hp] at hu
            cases hu
            obtain ⟨p0, hp0, hp0t⟩ := List.any_eq_true.mp hdang
            exact absurd (hnod p0 hp0) (by rw [hp0t]; simp)
          · have hok : validateUrl parseURL false (some s) = .ok () := by
              rw [hval false, if_neg (not_not_intro hproto)]
              rw [if_neg (by simp), if_neg (by simp), if_neg hdang]
            have haccept : urlAccepted parseURL (some s) := by
              refine ⟨s, parsed, rfl, hs, hp, hproto, ?_⟩
              intro p hpmem
              by_contra hc
              exact hdang (List.any_eq_true.mpr ⟨p, hpmem, by
                cases hcc : strContains (toLowerStr s) p
                · exact absurd hcc hc
                · rfl⟩)
            constructor
            · intro _
              exact haccept
            · intro hprod
              subst hprod
              exact ⟨fun _ => haccept, fun _ => hok⟩
        · have herr : ∀ pr, validateUrl parseURL pr (some s) ≠ .ok () := by
            intro pr h
            rw [hval pr, if_pos hproto] at h
            exact absurd h (by simp)
          refine ⟨fun h => absurd h (herr production), fun hprod => ?_⟩
          subst hprod
          refine ⟨fun h => absurd h (herr false), ?_⟩
          rintro ⟨s2, u, hs2, _, hu, hup, _⟩
          cases hs2
          rw [hp] at hu
          cases hu
          exact absurd hup hproto

/-- A concrete parseURL stand-in defined on one https address. -/
def parseURL0 : String → Option URLRec :=
  fun s => if s = "https://example.com/jobs" then
    some ⟨"https:", "example.com"⟩ else none

/-- Witness for C10: a plain https address is accepted outside
production, and acceptance follows from the theorem. -/
theorem c10_validate_url_witness :
    urlAccepted parseURL0 (some "https://example.com/jobs") :=
  (c10_validate_url parseURL0 false (some "https://example.com/jobs")).1 (by rfl)

/-! ## Resume parser (ResumeParser.extractYearsOfExperience)

The three experience regular expressions of the source are implemented
below over character lists: each matcher attempts its pattern at one
position, returning the captured data and the unconsumed tail, and the
scanner replays matchAll - leftmost match first, resuming after each
match (advancing one character when nothing matches, as matchAll does
for empty matches; every matcher here consumes at least one character).
The scanner carries fuel bounded by the text length, which makes it
structurally recursive, so concrete inputs evaluate by reduction. -/

/-- ASCII digit class of JavaScript regular expressions. -/
def isDigitCh (c : Char) : Bool := '0' ≤ c && c ≤ '9'

/-- Numeric value of a digit run, as parseInt reads it. -/
def digitsToNat (ds : List Char) : Nat :=
  ds.foldl (fun acc c => acc * 10 + (c.toNat - '0'.toNat)) 0

/-- Case-insensitive literal consumption (patterns carry the i flag;
the literals below are written lowercase). -/
def dropLeadCI : List Char → List Char → Option (List Char)
  | [], l => some l
  | _ :: _, [] => none
  | p :: ps, c :: cs => if c.toLower = p then dropLeadCI ps cs else none

/-- The dash class of the date-range pattern: hyphen, en dash, em dash. -/
def isDashCh (c : Char) : Bool :=
  c = '-' || c = Char.ofNat 0x2013 || c = Char.ofNat 0x2014

/-- First experience pattern: digits, optional plus, optional
whitespace, the literal year with optional s, mandatory whitespace, the
optional literal of with mandatory whitespace, then the literal
experience.  Each quantifier is greedy; no shorter backtracking choice
can ever succeed (digits cannot continue with a digit, whitespace runs
cannot end on whitespace), so the maximal-munch steps below are exact. -/
def matchP1 (l : List Char) : Option (Nat × List Char) :=
  let ds := l.takeWhile isDigitCh
  if ds.isEmpty then none
  else
    let r0 := l.dropWhile isDigitCh
    let r1 := match r0 with
      | '+' :: t => t
      | _ => r0
    let r2 := r1.dropWhile isJsWs
    match dropLeadCI ['y', 'e', 'a', 'r'] r2 with
    | none => none
    | some r3 =>
      let r4 := match r3 with
        | c :: t => if c.toLower = 's' then t else r3
        | [] => r3
      match r4 with
      | c :: _ =>
        if isJsWs c then
          let r5 := r4.dropWhile isJsWs
          let r6 := match dropLeadCI ['o', 'f'] r5 with
            | some t =>
              match t with
              | c2 :: _ => if isJsWs c2 then some (t.dropWhile isJsWs) else none
              | [] => none
            | none => none
          let r7 := match r6 with
            | some t => t
            | none => r5
          match dropLeadCI ['e', 'x', 'p', 'e', 'r', 'i', 'e', 'n', 'c', 'e'] r7 with
          | some rest => some (digitsToNat ds, rest)
          | none => none
        else none
      | [] => none

/-- Second experience pattern: the literal experience, one or more
colon-or-whitespace characters, digits, optional plus, optional
whitespace, the literal year with optional s. -/
def matchP2 (l : List Char) : Option (Nat × List Char) :=
  match dropLeadCI ['e', 'x', 'p', 'e', 'r', 'i', 'e', 'n', 'c', 'e'] l with
  | none => none
  | some r0 =>
    match r0 with
    | c :: _ =>
      if c = ':' || isJsWs c then
        let r1 := r0.dropWhile (fun d => d = ':' || isJsWs d)
        let ds := r1.takeWhile isDigitCh
        if ds.isEmpty then none
        else
          let r2 := r1.dropWhile isDigitCh
          let r3 := match r2 with
            | '+' :: t => t
            | _ => r2
          let r4 := r3.dropWhile isJsWs
          match dropLeadCI ['y', 'e', 'a', 'r'] r4 with
          | none => none
          | some r5 =>
            let r6 := match r5 with
              | c2 :: t => if c2.toLower = 's' then t else r5
              | [] => r5
            some (digitsToNat ds, r6)
      else none
    | [] => none

/-- Third pattern, date ranges: four digits, optional whitespace, a
dash, optional whitespace, then present, current or four digits (the
alternation order of the source).  The end year is reported when the
match text ends in four digits (the anchored submatch the source runs
on match[0]); present and current leave it absent. -/
def matchP3 (l : List Char) : Option ((Nat × Option Nat) × List Char) :=
  match l with
  | c1 :: c2 :: c3 :: c4 :: rest0 =>
    if isDigitCh c1 && isDigitCh c2 && isDigitCh c3 && isDigitCh c4 then
      let startYear := digitsToNat [c1, c2, c3, c4]
      match rest0.dropWhile isJsWs with
      | d :: r2 =>
        if isDashCh d then
          let r3 := r2.dropWhile isJsWs
          match dropLeadCI ['p', 'r', 'e', 's', 'e', 'n', 't'] r3 with
          | some r4 => some ((startYear, none), r4)
          | none =>
            match dropLeadCI ['c', 'u', 'r', 'r', 'e', 'n', 't'] r3 with
            | some r4 => some ((startYear, none), r4)
            | none =>
              match r3 with
              | e1 :: e2 :: e3 :: e4 :: r4 =>
                if isDigitCh e1 && isDigitCh e2 && isDigitCh e3 && isDigitCh e4 then
                  some ((startYear, some (digitsToNat [e1, e2, e3, e4])), r4)
                else none
              | _ => none
        else none
      | [] => none
    else none
  | _ => none

/-- Fuelled matchAll scan: try the matcher at this position, resume
after the match or advance one character.  The fuel, set to the text
length by scanMatches, bounds the number of steps; every matcher of
this file consumes at least one character, so the fuel never runs out
before the text does. -/
def scanFuel {α : Type} (m : List Char → Option (α × List Char)) :
    Nat → List Char → List α
  | 0, _ => []
  | _ + 1, [] => []
  | fuel + 1, c :: cs =>
    match m (c :: cs) with
    | some (a, rest) => a :: scanFuel m fuel rest
    | none => scanFuel m fuel cs

/-- All matches of a pattern over a text, in order. -/
def scanMatches {α : Type} (m : List Char → Option (α × List Char)) (l : List Char) :
    List α :=
  scanFuel m l.length l

/-- Embeds ResumeParser.extractYearsOfExperience: the maximum direct
mention (kept only when above the running maximum and at most 50),
falling back when that is zero to summing the durations of the date
ranges whose start year lies in [1970, currentYear], and finally
capping at 50.  The current year (new Date) is a parameter. -/
def extractYearsOfExperience (currentYear : ℤ) (text : String) : ℤ :=
  let cs := text.toList
  let direct : List Nat := scanMatches matchP1 cs ++ scanMatches matchP2 cs
  let maxYears1 : ℤ := direct.foldl
    (fun m y => if (y : ℤ) > m ∧ (y : ℤ) ≤ 50 then (y : ℤ) else m) 0
  let maxYears2 : ℤ :=
    if maxYears1 = 0 then
      (scanMatches matchP3 cs).foldl (fun m se =>
        let startYear : ℤ := (se.1 : ℤ)
        let endYear : ℤ := match se.2 with
          | some e => (e : ℤ)
          | none => currentYear
        if 1970 ≤ startYear ∧ startYear ≤ currentYear then m + (endYear - startYear)
        else m) 0
    else maxYears1
  min maxYears2 50

/-- Embeds ResumeParser.parseResume on the text the PDF collaborator
extracted: empty or whitespace-only text (the falsy-or-trim-empty check
of the source, written as an all-whitespace character test) is the
non-retryable EMPTY_PDF error, otherwise the profile is assembled.  The skills, technologies
and previous-roles keyword extractors are passed in as parameters: they
never touch yearsOfExperience, and the claim constrains only that
field, so the theorem below quantifies over them. -/
def parseResume (currentYear : ℤ)
    (extractSkills extractTechnologies extractPreviousRoles : String → List String)
    (rawText : String) : Except ServiceError CandidateProfile :=
  if rawText.toList.all isJsWs then
    .error ⟨"No text could be extracted from the PDF", "resume-parser", "EMPTY_PDF", false⟩
  else
    .ok { skills := extractSkills rawText,
          yearsOfExperience := extractYearsOfExperience currentYear rawText,
          technologies := extractTechnologies rawText,
          previousRoles := extractPreviousRoles rawText,
          rawText := rawText }

/-- Claim C6 fails on the code: a resume whose text contains the
backwards date range 2020 - 2010 parses (with the 2026 calendar year)
into a profile whose yearsOfExperience is -10, violating the
yearsOfExperience at least 0 invariant; only the upper cap at 50 holds.
The date-range fallback adds endYear - startYear without checking the
range runs forward. -/
theorem c6_negative_years_bug :
    (∀ extractSkills extractTechnologies extractPreviousRoles,
      ∃ p : CandidateProfile,
        parseResume 2026 extractSkills extractTechnologies extractPreviousRoles
          "2020 - 2010" = .ok p
        ∧ p.yearsOfExperience = -10 ∧ p.yearsOfExperience < 0)
    ∧ (∀ (currentYear : ℤ) (text : String),
        extractYearsOfExperience currentYear text ≤ 50) := by
  constructor
  · intro extractSkills extractTechnologies extractPreviousRoles
    refine ⟨{ skills := extractSkills "2020 - 2010",
              yearsOfExperience := -10,
              technologies := extractTechnologies "2020 - 2010",
              previousRoles := extractPreviousRoles "2020 - 2010",
              rawText := "2020 - 2010" }, ?_, rfl, by norm_num⟩
    show (if ("2020 - 2010" : String).toList.all isJsWs then _ else _) = _
    rw [if_neg (by decide)]
    have hyears : extractYearsOfExperience 2026 "2020 - 2010" = -10 := by decide
    rw [hyears]
  · intro currentYear text
    exact min_le_right _ _

end JobScanner
